import Mathlib

/-!
Verification of the 2-D terrain editor core (`src/main.cpp`).

The editor stores terrain in an `olc::Sprite` whose pixels are grayscale
bytes (r = g = b); a cell's density is `r / 255`.  We embed the sprite as a
`Grid`: a pair of dimensions plus a total cell function `ℤ → ℤ → ℕ` holding
the byte value.  Pixel reads outside the sprite return the blank pixel
(byte 0) and writes outside the sprite are dropped, which is the behaviour
of `olc::Sprite::GetPixel` / `SetPixel` in the default sprite mode used by
the program.  Floating point arithmetic is embedded as exact rational
arithmetic; the float-to-uint8 cast truncates toward zero, which on the
non-negative clamped values the program produces is `Int.floor`.
-/

/-- Terrain sprite: dimensions and the byte (0..255) stored at each cell. -/
structure Grid where
  w : ℤ
  h : ℤ
  cell : ℤ → ℤ → ℕ

/-- Bounds test used by `olc::Sprite::GetPixel` / `SetPixel`. -/
def Grid.inb (g : Grid) (x y : ℤ) : Bool :=
  decide (0 ≤ x ∧ x < g.w ∧ 0 ≤ y ∧ y < g.h)

/-- Sprite read: the stored byte inside the sprite, the blank pixel (0) outside. -/
def Grid.getPixel (g : Grid) (x y : ℤ) : ℕ :=
  if g.inb x y then g.cell x y else 0

/-- Sprite write: stores the byte inside the sprite, drops the write outside. -/
def Grid.setPixel (g : Grid) (x y : ℤ) (v : ℕ) : Grid :=
  if g.inb x y then { g with cell := fun a b => if a = x ∧ b = y then v else g.cell a b }
  else g

/-- Density of a cell, `GetColourValue` in the source: `pixel.r / 255`. -/
def GetColourValue (g : Grid) (x y : ℤ) : ℚ :=
  (g.getPixel x y : ℚ) / 255

/-- `std::clamp`. -/
def clampQ (v lo hi : ℚ) : ℚ := min (max v lo) hi

/-- The float-to-uint8 projection `uint8_t(result_fraction * 255.0f)` applied to a
value already clamped to `[0,1]`: truncation toward zero of a non-negative value
is `Int.floor`. -/
def projByte (f : ℚ) : ℕ := (⌊f * 255⌋).toNat

/-- `SetColourValue` in the source: clamp the fraction to `[0,1]` and store the
projected byte as a gray pixel. -/
def SetColourValue (g : Grid) (x y : ℤ) (fraction : ℚ) : Grid :=
  g.setPixel x y (projByte (clampQ fraction 0 1))

/-- `SubtractValueFromColour` in the source. -/
def SubtractValueFromColour (g : Grid) (x y : ℤ) (fraction : ℚ) : Grid :=
  let curr : ℚ := (g.getPixel x y : ℚ) / 255
  g.setPixel x y (projByte (clampQ (curr - fraction) 0 1))

/-- `AddValueToColour` in the source. -/
def AddValueToColour (g : Grid) (x y : ℤ) (fraction : ℚ) : Grid :=
  let curr : ℚ := (g.getPixel x y : ℚ) / 255
  g.setPixel x y (projByte (clampQ (curr + fraction) 0 1))

/-- `MapLocationIsEmpty`: the pixel is fully black. -/
def MapLocationIsEmpty (g : Grid) (x y : ℤ) : Bool :=
  decide (g.getPixel x y = 0)

/-- `MapLocationIsFull`: the pixel is fully white. -/
def MapLocationIsFull (g : Grid) (x y : ℤ) : Bool :=
  decide (g.getPixel x y = 255)

/-- Well-formedness of the sprite: every stored byte fits in `uint8_t`. -/
def Grid.Wf (g : Grid) : Prop := ∀ a b : ℤ, g.cell a b ≤ 255

/-- A grid whose every cell holds the byte `c`. -/
def uniformGrid (w h : ℤ) (c : ℕ) : Grid := ⟨w, h, fun _ _ => c⟩

/-- `EaseInOutCubic` in the source. -/
def EaseInOutCubic (x : ℚ) : ℚ :=
  if x < 1/2 then 4*x*x*x else 1 - (-2*x + 2)^3/2

/-- `Lerp` in the source. -/
def Lerp (a b t : ℚ) : ℚ := a * (1 - t) + b * t

/-- The list `[a, a+1, ..., b]`, the index sequence of a C `for` loop with
inclusive bounds. -/
def iccList (a b : ℤ) : List ℤ :=
  (List.range (b + 1 - a).toNat).map (fun (k : ℕ) => a + (k : ℤ))

/-- Row-major pair sequence of two nested loops (outer over `xs`, inner over `ys`). -/
def prodList (xs ys : List ℤ) : List (ℤ × ℤ) :=
  xs.flatMap (fun x => ys.map (fun y => (x, y)))

/-- Sequential commit of a list of staged writes `(position, fraction)` through
`SetColourValue`, as the apply loops of the brush operations do. -/
def commitList (g : Grid) (l : List ((ℤ × ℤ) × ℚ)) : Grid :=
  l.foldl (fun gg pv => SetColourValue gg pv.1.1 pv.1.2 pv.2) g

lemma iccList_mem {a b x : ℤ} : x ∈ iccList a b ↔ a ≤ x ∧ x ≤ b := by
  constructor
  · intro hx
    simp only [iccList, List.mem_map, List.mem_range] at hx
    obtain ⟨k, hk, rfl⟩ := hx
    omega
  · intro hx
    simp only [iccList, List.mem_map, List.mem_range]
    exact ⟨(x - a).toNat, by omega, by omega⟩

lemma iccList_cons {a b : ℤ} (h : a ≤ b) : iccList a b = a :: iccList (a + 1) b := by
  have h1 : (b + 1 - a).toNat = (b + 1 - (a + 1)).toNat + 1 := by omega
  simp only [iccList, h1, List.range_succ_eq_map, List.map_cons, List.map_map]
  refine congrArg₂ _ (by simp) ?_
  apply List.map_congr_left
  intro k _
  simp only [Function.comp_apply]
  push_cast
  ring

lemma iccList_length {a b : ℤ} : (iccList a b).length = (b + 1 - a).toNat := by
  simp [iccList]

lemma prodList_mem {xs ys : List ℤ} {p : ℤ × ℤ} :
    p ∈ prodList xs ys ↔ p.1 ∈ xs ∧ p.2 ∈ ys := by
  constructor
  · intro hp
    simp only [prodList, List.mem_flatMap, List.mem_map] at hp
    obtain ⟨x, hx, y, hy, rfl⟩ := hp
    exact ⟨hx, hy⟩
  · intro ⟨h1, h2⟩
    simp only [prodList, List.mem_flatMap, List.mem_map]
    exact ⟨p.1, h1, p.2, h2, rfl⟩

lemma setColourValue_w (g : Grid) (x y : ℤ) (f : ℚ) :
    (SetColourValue g x y f).w = g.w := by
  unfold SetColourValue Grid.setPixel
  split <;> rfl

lemma setColourValue_h (g : Grid) (x y : ℤ) (f : ℚ) :
    (SetColourValue g x y f).h = g.h := by
  unfold SetColourValue Grid.setPixel
  split <;> rfl

lemma setColourValue_inb (g : Grid) (x y : ℤ) (f : ℚ) (a b : ℤ) :
    (SetColourValue g x y f).inb a b = g.inb a b := by
  unfold Grid.inb
  rw [setColourValue_w, setColourValue_h]

lemma setColourValue_cell_other (g : Grid) (x y : ℤ) (f : ℚ) (a b : ℤ)
    (h : ¬(a = x ∧ b = y)) : (SetColourValue g x y f).cell a b = g.cell a b := by
  unfold SetColourValue Grid.setPixel
  split
  · simp only [h, if_false]
  · rfl

lemma setColourValue_cell_self (g : Grid) (x y : ℤ) (f : ℚ) (hb : g.inb x y = true) :
    (SetColourValue g x y f).cell x y = projByte (clampQ f 0 1) := by
  unfold SetColourValue Grid.setPixel
  rw [hb]
  simp

lemma setColourValue_oob (g : Grid) (x y : ℤ) (f : ℚ) (hb : g.inb x y = false) :
    SetColourValue g x y f = g := by
  unfold SetColourValue Grid.setPixel
  rw [hb]
  simp

lemma commitList_inb (g : Grid) (l : List ((ℤ × ℤ) × ℚ)) (a b : ℤ) :
    (commitList g l).inb a b = g.inb a b := by
  induction l generalizing g with
  | nil => rfl
  | cons pv t ih =>
    simp only [commitList, List.foldl_cons] at *
    rw [ih, setColourValue_inb]

lemma commitList_cell_notMem (g : Grid) (l : List ((ℤ × ℤ) × ℚ)) (a b : ℤ)
    (h : (a, b) ∉ l.map Prod.fst) : (commitList g l).cell a b = g.cell a b := by
  induction l generalizing g with
  | nil => rfl
  | cons pv t ih =>
    simp only [List.map_cons, List.mem_cons, not_or] at h
    simp only [commitList, List.foldl_cons] at *
    rw [ih _ h.2, setColourValue_cell_other]
    intro hc
    exact h.1 (by cases pv with | mk p v => cases p; simp_all)

lemma commitList_cell_mem (g : Grid) (l : List ((ℤ × ℤ) × ℚ)) (F : ℤ × ℤ → ℚ)
    (hf : ∀ pv ∈ l, pv.2 = F pv.1) (a b : ℤ) (h : (a, b) ∈ l.map Prod.fst)
    (hb : g.inb a b = true) :
    (commitList g l).cell a b = projByte (clampQ (F (a, b)) 0 1) := by
  induction l generalizing g with
  | nil => simp at h
  | cons pv t ih =>
    simp only [commitList, List.foldl_cons]
    by_cases ht : (a, b) ∈ t.map Prod.fst
    · exact ih _ (fun q hq => hf q (List.mem_cons_of_mem _ hq)) ht
        (by rw [setColourValue_inb]; exact hb)
    · have hpv : pv.1 = (a, b) := by
        simp only [List.map_cons, List.mem_cons] at h
        rcases h with h | h
        · exact h.symm
        · exact absurd h ht
      have hcell : (commitList (SetColourValue g pv.1.1 pv.1.2 pv.2) t).cell a b
          = (SetColourValue g pv.1.1 pv.1.2 pv.2).cell a b :=
        commitList_cell_notMem _ _ _ _ ht
      simp only [commitList] at hcell ⊢
      rw [hcell, hpv, setColourValue_cell_self _ _ _ _ hb, hf pv (List.mem_cons_self _ _), hpv]

lemma commitList_cell_oob (g : Grid) (l : List ((ℤ × ℤ) × ℚ)) (a b : ℤ)
    (hb : g.inb a b = false) : (commitList g l).cell a b = g.cell a b := by
  induction l generalizing g with
  | nil => rfl
  | cons pv t ih =>
    simp only [commitList, List.foldl_cons] at *
    rw [ih _ (by rw [setColourValue_inb]; exact hb)]
    by_cases hc : a = pv.1.1 ∧ b = pv.1.2
    · obtain ⟨rfl, rfl⟩ := hc
      rw [setColourValue_oob _ _ _ _ hb]
    · exact setColourValue_cell_other _ _ _ _ _ _ hc

lemma projByte_le (f : ℚ) : projByte (clampQ f 0 1) ≤ 255 := by
  unfold projByte clampQ
  have h1 : min (max f 0) 1 ≤ 1 := min_le_right _ _
  have h2 : min (max f 0) 1 * 255 ≤ ((255 : ℤ) : ℚ) := by push_cast; nlinarith
  have h3 : ⌊min (max f 0) 1 * 255⌋ ≤ 255 := by
    have := Int.floor_le_floor h2
    rwa [Int.floor_intCast] at this
  omega

lemma projByte_byte (c : ℕ) (hc : c ≤ 255) : projByte (clampQ ((c : ℚ) / 255) 0 1) = c := by
  unfold projByte clampQ
  have h0 : (0 : ℚ) ≤ (c : ℚ) / 255 := by positivity
  have h1 : (c : ℚ) / 255 ≤ 1 := by
    rw [div_le_one (by norm_num)]
    exact_mod_cast hc
  rw [max_eq_left h0, min_eq_left h1]
  rw [div_mul_cancel₀ _ (by norm_num : (255 : ℚ) ≠ 0)]
  rw [Int.floor_natCast]
  simp

/-- Accumulated neighbourhood sum of the naive BlendBall: the two nested
`for (ox/oy in [-blend_range, blend_range])` loops adding `GetColourValue`. -/
def windowSum (g : Grid) (x0 y0 r : ℤ) : ℚ :=
  (prodList (iccList (-r) r) (iccList (-r) r)).foldl
    (fun s o => s + GetColourValue g (x0 + o.1) (y0 + o.2)) 0

/-- The `max_sum_weighted` accumulator of the same loops (adds 1 per sample). -/
def windowCount (r : ℤ) : ℚ :=
  (prodList (iccList (-r) r) (iccList (-r) r)).foldl (fun s _ => s + 1) 0

/-- Value staged into the `BlockBuffer` by `AdjustTerrain_BlendBallFractional`
for the brush-relative cell `(x, y)`: outside the brush disc the current value is
staged back; inside, the eased neighbourhood average is blended with the current
value by normalised squared distance. -/
def naiveBufVal (g : Grid) (b r tx ty : ℤ) (x y : ℤ) : ℚ :=
  if b * b ≤ x * x + y * y then GetColourValue g (x + tx) (y + ty)
  else
    let average := EaseInOutCubic (windowSum g (x + tx) (y + ty) r / windowCount r)
    let curr := GetColourValue g (x + tx) (y + ty)
    let dn := max (((x * x + y * y : ℤ) : ℚ) / ((b * b : ℤ) : ℚ) * 2 - 1) 0
    curr * dn + average * (1 - dn)

/-- The naive BlendBall `AdjustTerrain_BlendBallFractional` with hit cell
`(tx, ty)`, brush radius `b` and blend range `r`: stage a value for every cell of
the brush square into the buffer (reading only the starting grid), then commit
the whole square through `SetColourValue`.  The raycast preamble that produces
the hit cell is common to all three variants and is abstracted into `(tx, ty)`. -/
def AdjustTerrain_BlendBallFractional (g : Grid) (b r tx ty : ℤ) : Grid :=
  commitList g ((prodList (iccList (-b) b) (iccList (-b) b)).map
    (fun q => ((q.1 + tx, q.2 + ty), naiveBufVal g b r tx ty q.1 q.2)))

/-- Side length of the summed-area-table region of
`AdjustTerrain_BlendBallFractionalFast`: `2 * (brush_size + 5) + 1`, where 5 is
the local `blend_range` that shadows the class member inside that function. -/
def satSize (b : ℤ) : ℕ := (2 * (b + 5) + 1).toNat

/-- The flattened index sequence of the region loops: the source iterates `y`
then `x` with a running flat index `i = y * size + x`. -/
def satPairs (n : ℕ) : List (ℕ × ℕ) :=
  (List.range (n * n)).map (fun i => (i / n, i % n))

/-- One entry of the summed-area table: the current sample plus the sums to the
left and above minus the double-counted overlap, appended to the flat table. -/
def satStep (g : Grid) (tx ty rh : ℤ) (n : ℕ) (sums : List ℚ) (yx : ℕ × ℕ) : List ℚ :=
  let y := yx.1
  let x := yx.2
  let s0 : ℚ := GetColourValue g (tx + (x : ℤ) - rh) (ty + (y : ℤ) - rh)
  let s1 : ℚ := if 0 < x then s0 + sums.getD (sums.length - 1) 0 else s0
  let s2 : ℚ := if 0 < y then s1 + sums.getD (sums.length - n) 0 else s1
  let s3 : ℚ := if 0 < x ∧ 0 < y then s2 - sums.getD (sums.length - (n + 1)) 0 else s2
  sums ++ [s3]

/-- The summed-area table built by `AdjustTerrain_BlendBallFractionalFast`. -/
def satTable (g : Grid) (b tx ty : ℤ) : List ℚ :=
  (satPairs (satSize b)).foldl (satStep g tx ty (b + 5) (satSize b)) []

/-- Per-cell value written by the apply loop of
`AdjustTerrain_BlendBallFractionalFast` at region coordinates `(x, y)`: the
window sum from four table lookups divided by the clamped window area, eased,
then lerped with the inverted distance normalisation `1 - d2/R2` of the source
(note: the source lerps from the current value toward the average, unlike the
other two variants). -/
def fastCommitVal (g : Grid) (b tx ty : ℤ) (sums : List ℚ) (x y : ℕ) : ℚ :=
  let rh := b + 5
  let n := satSize b
  let dx : ℤ := (x : ℤ) - rh
  let dy : ℤ := (y : ℤ) - rh
  let ymin : ℤ := max ((y : ℤ) - 5) 0 - 1
  let ymax : ℤ := min ((y : ℤ) + 5) ((n : ℤ) - 1)
  let xmin : ℤ := max ((x : ℤ) - 5) 0 - 1
  let xmax : ℤ := min ((x : ℤ) + 5) ((n : ℤ) - 1)
  let area : ℚ := (((xmax - xmin) * (ymax - ymin) : ℤ) : ℚ)
  let qa : ℚ := if xmin < 0 ∨ ymin < 0 then 0 else sums.getD (ymin * (n : ℤ) + xmin).toNat 0
  let qb : ℚ := if ymin < 0 then 0 else sums.getD (ymin * (n : ℤ) + xmax).toNat 0
  let qc : ℚ := if xmin < 0 then 0 else sums.getD (ymax * (n : ℤ) + xmin).toNat 0
  let qd : ℚ := sums.getD (ymax * (n : ℤ) + xmax).toNat 0
  let sum := (qd + qa) - (qb + qc)
  let average := EaseInOutCubic (sum / area)
  let distance : ℚ := ((dx * dx + dy * dy : ℤ) : ℚ)
  let dn := max ((1 - distance / ((b * b : ℤ) : ℚ)) * 2 - 1) 0
  let curr := GetColourValue g (tx + dx) (ty + dy)
  Lerp curr average dn

/-- The summed-area-table BlendBall `AdjustTerrain_BlendBallFractionalFast`:
build the table over the region square, then write every region cell.  The
write of each cell happens once and reads of the current value at a cell happen
before its own write, so the per-cell values are those computed from the
starting grid and the table. -/
def AdjustTerrain_BlendBallFractionalFast (g : Grid) (b tx ty : ℤ) : Grid :=
  let n := satSize b
  let sums := satTable g b tx ty
  commitList g ((satPairs n).map (fun yx =>
    ((tx + (yx.2 : ℤ) - (b + 5), ty + (yx.1 : ℤ) - (b + 5)),
      fastCommitVal g b tx ty sums yx.2 yx.1)))

/-- Point update of the scratch buffer (`BlockBuffer<float>::set`); the buffer
is addressed by brush-relative signed coordinates and starts zero-filled. -/
def updB (bf : ℤ → ℤ → ℚ) (x y : ℤ) (v : ℚ) : ℤ → ℤ → ℚ :=
  fun a b => if a = x ∧ b = y then v else bf a b

/-- Push a sample onto the sliding-window queue and add it to the running sum. -/
def slidePush (s : ℚ × List ℚ) (v : ℚ) : ℚ × List ℚ := (s.1 + v, s.2 ++ [v])

/-- Subtract the expiring front of the queue from the running sum and pop it. -/
def slidePop (s : ℚ × List ℚ) : ℚ × List ℚ := (s.1 - s.2.headI, s.2.tail)

/-- Body of the horizontal blur of `AdjustTerrain_BlendBallFractionalFast2` for
one cell: prime the window at the first column, otherwise slide it one step;
store the row average into the scratch buffer. -/
def xBlurBody (g : Grid) (b r tx ty y : ℤ) (acc : ℚ × List ℚ × (ℤ → ℤ → ℚ)) (x : ℤ) :
    ℚ × List ℚ × (ℤ → ℤ → ℚ) :=
  let x0 := x + tx
  let y0 := y + ty
  let sq : ℚ × List ℚ :=
    if x = -b then
      (iccList (-r) r).foldl (fun sq2 ox => slidePush sq2 (GetColourValue g (x0 + ox) y0))
        (acc.1, acc.2.1)
    else
      slidePop (slidePush (acc.1, acc.2.1) (GetColourValue g (x0 + r) y0))
  let average := sq.1 / (2 * (r : ℚ) + 1)
  (sq.1, sq.2, updB acc.2.2 x y average)

/-- Horizontal blur of one row: the sum and queue start fresh per row. -/
def xBlurRow (g : Grid) (b r tx ty : ℤ) (bf : ℤ → ℤ → ℚ) (y : ℤ) : ℤ → ℤ → ℚ :=
  ((iccList (-b) b).foldl (xBlurBody g b r tx ty y) (0, [], bf)).2.2

/-- Horizontal blur over all rows `y ∈ [-(b+r), b+r]` of the extended square. -/
def xBlurAll (g : Grid) (b r tx ty : ℤ) (bf : ℤ → ℤ → ℚ) : ℤ → ℤ → ℚ :=
  (iccList (-(b + r)) (b + r)).foldl (xBlurRow g b r tx ty) bf

/-- Body of the vertical blur for one cell; it reads and writes the same
scratch buffer (reads stay ahead of writes in the source's iteration order). -/
def yBlurBody (b r x : ℤ) (acc : ℚ × List ℚ × (ℤ → ℤ → ℚ)) (y : ℤ) :
    ℚ × List ℚ × (ℤ → ℤ → ℚ) :=
  let bf := acc.2.2
  let sq : ℚ × List ℚ :=
    if y = -b then
      (iccList (-r) r).foldl (fun sq2 oy => slidePush sq2 (bf x (y + oy))) (acc.1, acc.2.1)
    else
      slidePop (slidePush (acc.1, acc.2.1) (bf x (y + r)))
  let average := sq.1 / (2 * (r : ℚ) + 1)
  (sq.1, sq.2, updB bf x y average)

/-- Vertical blur of one column. -/
def yBlurCol (b r : ℤ) (bf : ℤ → ℤ → ℚ) (x : ℤ) : ℤ → ℤ → ℚ :=
  ((iccList (-b) b).foldl (yBlurBody b r x) (0, [], bf)).2.2

/-- Vertical blur over all columns `x ∈ [-b, b]`. -/
def yBlurAll (b r : ℤ) (bf : ℤ → ℤ → ℚ) : ℤ → ℤ → ℚ :=
  (iccList (-b) b).foldl (yBlurCol b r) bf

/-- The doubly-averaged scratch buffer of `AdjustTerrain_BlendBallFractionalFast2`. -/
def fast2Buffer (g : Grid) (b r tx ty : ℤ) : ℤ → ℤ → ℚ :=
  yBlurAll b r (xBlurAll g b r tx ty (fun _ _ => 0))

/-- Per-cell value written by the final pass of
`AdjustTerrain_BlendBallFractionalFast2` for an in-disc cell. -/
def fast2CommitVal (g : Grid) (b : ℤ) (bf : ℤ → ℤ → ℚ) (tx ty x y : ℤ) : ℚ :=
  let average := EaseInOutCubic (bf x y)
  let curr := GetColourValue g (x + tx) (y + ty)
  let dn := max (((x * x + y * y : ℤ) : ℚ) / ((b * b : ℤ) : ℚ) * 2 - 1) 0
  Lerp average curr dn

/-- The separable sliding-window BlendBall
`AdjustTerrain_BlendBallFractionalFast2`: horizontal then vertical blur into the
scratch buffer, then write every cell strictly inside the brush disc (cells
with `distance >= brush_size_squared` are skipped by `continue`).  Each in-disc
cell is written once and its current value is read before its own write. -/
def AdjustTerrain_BlendBallFractionalFast2 (g : Grid) (b r tx ty : ℤ) : Grid :=
  let bf := fast2Buffer g b r tx ty
  commitList g (((prodList (iccList (-b) b) (iccList (-b) b)).filter
    (fun q => decide (q.1 * q.1 + q.2 * q.2 < b * b))).map
    (fun q => ((q.1 + tx, q.2 + ty), fast2CommitVal g b bf tx ty q.1 q.2)))

/-- The C float-to-int cast (`olc::vf2d` to `olc::vi2d`): truncation toward zero. -/
def truncQ (q : ℚ) : ℤ := if 0 ≤ q then ⌊q⌋ else -⌊-q⌋

/-- Modelled from the spec: `olc::PixelGameEngine::FillCircle` (third-party
engine code, not part of this repository) "sets every cell within Euclidean
`radius`" of the centre; each pixel write is bounds-checked, so off-sprite cells
are left untouched. -/
def FillCircleVal (g : Grid) (cx cy radius : ℤ) (v : ℕ) : Grid :=
  { g with cell := fun a b =>
      if (a - cx) * (a - cx) + (b - cy) * (b - cy) ≤ radius * radius ∧ g.inb a b then v
      else g.cell a b }

/-- `DestructTerrain_CircleFull`: pull the hit point backward along the aim
direction by `radius - 2` and fill the disc with `olc::BLACK` (byte 0). -/
def DestructTerrain_CircleFull (g : Grid) (vx vy dx dy : ℚ) (radius : ℤ) : Grid :=
  let px := vx - dx * ((radius : ℚ) - 2)
  let py := vy - dy * ((radius : ℚ) - 2)
  FillCircleVal g (truncQ px) (truncQ py) radius 0

/-- Strict order on ray lengths where `none` stands for the infinite length a
zero direction component produces (`sqrt(1 + (c/0)^2)` is `inf` in float). -/
def oLt : Option ℚ → Option ℚ → Bool
  | some a, some b => decide (a < b)
  | some _, none => true
  | none, _ => false

/-- Add a unit step length to an accumulated ray length (`inf` stays `inf`). -/
def oAdd : Option ℚ → Option ℚ → Option ℚ
  | some a, some b => some (a + b)
  | _, _ => none

/-- Bounds test of the DDA walk: `0 <= x < map_size.x && 0 <= y < map_size.y`. -/
def inBoundsB (w h x y : ℤ) : Bool :=
  decide (0 ≤ x ∧ x < w ∧ 0 ≤ y ∧ y < h)

/-- Result of a DDA walk: the hit flag, the final `vMapCheck`, the
`previous_tile`, and (as ghost instrumentation for the proofs) the list of
cells stepped to, in order. -/
structure DdaResult where
  found : Bool
  cx : ℤ
  cy : ℤ
  px : ℤ
  py : ℤ
  visited : List (ℤ × ℤ)

/-- The shared DDA walk of the three raycast variants.  Per iteration: check
`fDistance < max_distance`, record the previous tile, step one cell along the
axis with the smaller accumulated ray length, then test the new cell (the test
is skipped when the new cell is out of bounds).  The float preamble that
derives the per-axis unit step lengths and initial lengths from the direction
is abstracted into the parameters `ux, uy` and the initial lengths; `sx, sy`
are the `vStep` signs.  `fuel` bounds the number of iterations; the source loop
always stops because each unit step length is at least 1. -/
def ddaLoop (w h : ℤ) (test : ℤ → ℤ → Bool) (sx sy : ℤ) (ux uy : Option ℚ) (maxDist : ℚ) :
    ℕ → ℤ → ℤ → Option ℚ → Option ℚ → Option ℚ → ℤ × ℤ → DdaResult
  | 0, x, y, _, _, _, prev => ⟨false, x, y, prev.1, prev.2, []⟩
  | fuel + 1, x, y, lenx, leny, dist, prev =>
    if oLt dist (some maxDist) then
      if oLt lenx leny then
        let x2 := x + sx
        if inBoundsB w h x2 y && test x2 y then ⟨true, x2, y, x, y, [(x2, y)]⟩
        else
          let r := ddaLoop w h test sx sy ux uy maxDist fuel x2 y (oAdd lenx ux) leny lenx (x, y)
          ⟨r.found, r.cx, r.cy, r.px, r.py, (x2, y) :: r.visited⟩
      else
        let y2 := y + sy
        if inBoundsB w h x y2 && test x y2 then ⟨true, x, y2, x, y, [(x, y2)]⟩
        else
          let r := ddaLoop w h test sx sy ux uy maxDist fuel x y2 lenx (oAdd leny uy) leny (x, y)
          ⟨r.found, r.cx, r.cy, r.px, r.py, (x, y2) :: r.visited⟩
    else ⟨false, x, y, prev.1, prev.2, []⟩

/-- `RaycastPixel`: the walk stops at the first in-bounds non-empty cell. -/
def RaycastPixel (g : Grid) (startx starty sx sy : ℤ) (ux uy lenx0 leny0 : Option ℚ)
    (maxDist : ℚ) (fuel : ℕ) : DdaResult :=
  ddaLoop g.w g.h (fun x y => !MapLocationIsEmpty g x y) sx sy ux uy maxDist fuel
    startx starty lenx0 leny0 (some 0) (startx, starty)

/-- `RaycastPrePixel`: same walk as `RaycastPixel`, but the previous tile is
tracked and used by the report below. -/
def RaycastPrePixel (g : Grid) (startx starty sx sy : ℤ) (ux uy lenx0 leny0 : Option ℚ)
    (maxDist : ℚ) (fuel : ℕ) : DdaResult :=
  ddaLoop g.w g.h (fun x y => !MapLocationIsEmpty g x y) sx sy ux uy maxDist fuel
    startx starty lenx0 leny0 (some 0) (startx, starty)

/-- The `intersection_result` of `RaycastPrePixel`: the previous tile when the
final cell is fully white (`MapLocationIsFull`), the final cell otherwise. -/
def RaycastPrePixelReported (g : Grid) (startx starty sx sy : ℤ)
    (ux uy lenx0 leny0 : Option ℚ) (maxDist : ℚ) (fuel : ℕ) : ℤ × ℤ :=
  let r := RaycastPrePixel g startx starty sx sy ux uy lenx0 leny0 maxDist fuel
  if MapLocationIsFull g r.cx r.cy then (r.px, r.py) else (r.cx, r.cy)

/-- `RaycastPixelTarget`: the walk stops at the first in-bounds cell with
density at least `0.5`. -/
def RaycastPixelTarget (g : Grid) (startx starty sx sy : ℤ) (ux uy lenx0 leny0 : Option ℚ)
    (maxDist : ℚ) (fuel : ℕ) : DdaResult :=
  ddaLoop g.w g.h (fun x y => decide ((1 : ℚ)/2 ≤ GetColourValue g x y)) sx sy ux uy
    maxDist fuel startx starty lenx0 leny0 (some 0) (startx, starty)

/-- The angle sequence of the cone-sweep loop
`for (float i = -cone_angle; i <= cone_angle; i += step)`, one entry per loop
iteration; each iteration casts exactly one ray. -/
def sweepAngles (coneAngle step : ℚ) : ℕ → ℚ → List ℚ
  | 0, _ => []
  | fuel + 1, i => if i ≤ coneAngle then i :: sweepAngles coneAngle step fuel (i + step) else []

/-- Angles of the rays cast by `DestructTerrain_GaussFractional` (the per-ray
trigonometric rotation and density edit do not affect how many rays are cast). -/
def DestructTerrain_GaussFractional_rayAngles (coneAngle step : ℚ) (fuel : ℕ) : List ℚ :=
  sweepAngles coneAngle step fuel (-coneAngle)

/-- Angles of the rays cast by `RestoreTerrain_GaussFractional` (identical loop). -/
def RestoreTerrain_GaussFractional_rayAngles (coneAngle step : ℚ) (fuel : ℕ) : List ℚ :=
  sweepAngles coneAngle step fuel (-coneAngle)

/-- `BlockBuffer::get_index`: the unchecked flat index `(y - y_offset) * x_size
+ (x - x_offset)` where the buffer was constructed over the inclusive window
`[(fromx, fromy), (tox, toy)]` and `x_size = tox - fromx + 1`. -/
def BlockBuffer.get_index (fromx fromy tox : ℤ) (x y : ℤ) : ℤ :=
  (y - fromy) * (tox - fromx + 1) + (x - fromx)

lemma Grid.setPixel_Wf (g : Grid) (x y : ℤ) (v : ℕ) (hw : g.Wf) (hv : v ≤ 255) :
    (g.setPixel x y v).Wf := by
  unfold Grid.setPixel
  split
  · intro a b
    by_cases hab : a = x ∧ b = y <;> simp [hab, hw a b, hv]
  · exact hw

lemma Grid.Wf.getPixel_le {g : Grid} (hw : g.Wf) (a b : ℤ) : g.getPixel a b ≤ 255 := by
  unfold Grid.getPixel
  split
  · exact hw a b
  · omega

lemma Grid.Wf.density {g : Grid} (hw : g.Wf) (a b : ℤ) :
    0 ≤ GetColourValue g a b ∧ GetColourValue g a b ≤ 1 := by
  unfold GetColourValue
  constructor
  · positivity
  · rw [div_le_one (by norm_num)]
    exact_mod_cast hw.getPixel_le a b

/-- C6: for every cell position, every current grid and every input fraction of
any magnitude or sign, `SetColourValue`, `SubtractValueFromColour` and
`AddValueToColour` clamp before storing, so every stored byte stays in
`0..255` and every cell density stays in `[0, 1]`. -/
theorem C6_density_clamped (g : Grid) (x y : ℤ) (f : ℚ) (hw : g.Wf) :
    (SubtractValueFromColour g x y f).Wf ∧
    (AddValueToColour g x y f).Wf ∧
    (SetColourValue g x y f).Wf ∧
    (∀ a b : ℤ, 0 ≤ GetColourValue (SubtractValueFromColour g x y f) a b ∧
      GetColourValue (SubtractValueFromColour g x y f) a b ≤ 1) ∧
    (∀ a b : ℤ, 0 ≤ GetColourValue (AddValueToColour g x y f) a b ∧
      GetColourValue (AddValueToColour g x y f) a b ≤ 1) ∧
    (∀ a b : ℤ, 0 ≤ GetColourValue (SetColourValue g x y f) a b ∧
      GetColourValue (SetColourValue g x y f) a b ≤ 1) := by
  have h1 : (SubtractValueFromColour g x y f).Wf :=
    Grid.setPixel_Wf _ _ _ _ hw (projByte_le _)
  have h2 : (AddValueToColour g x y f).Wf :=
    Grid.setPixel_Wf _ _ _ _ hw (projByte_le _)
  have h3 : (SetColourValue g x y f).Wf :=
    Grid.setPixel_Wf _ _ _ _ hw (projByte_le _)
  exact ⟨h1, h2, h3, fun a b => h1.density a b, fun a b => h2.density a b,
    fun a b => h3.density a b⟩

/-- Witness for C6 at a concrete grid, cell and out-of-range inputs. -/
theorem C6_witness :
    (uniformGrid 4 4 64).Wf ∧
    (SubtractValueFromColour (uniformGrid 4 4 64) 1 1 (7/2)).cell 1 1 ≤ 255 ∧
    (0 ≤ GetColourValue (AddValueToColour (uniformGrid 4 4 64) 1 1 (-9)) 1 1 ∧
      GetColourValue (AddValueToColour (uniformGrid 4 4 64) 1 1 (-9)) 1 1 ≤ 1) ∧
    (0 ≤ GetColourValue (SetColourValue (uniformGrid 4 4 64) 2 2 10) 2 2 ∧
      GetColourValue (SetColourValue (uniformGrid 4 4 64) 2 2 10) 2 2 ≤ 1) := by
  have hw : (uniformGrid 4 4 64).Wf := fun a b => by norm_num [uniformGrid]
  have h1 := C6_density_clamped (uniformGrid 4 4 64) 1 1 (7/2) hw
  have h2 := C6_density_clamped (uniformGrid 4 4 64) 1 1 (-9) hw
  have h3 := C6_density_clamped (uniformGrid 4 4 64) 2 2 10 hw
  exact ⟨hw, h1.1 1 1, h2.2.2.2.2.1 1 1, h3.2.2.2.2.2 2 2⟩

/-- C2 counterexample: on an all-solid grid, `DestructTerrain_CircleFull` with
radius 4, hit cell `(10, 10)` and direction `(0, 1)` leaves the offset centre
`(10, 8)` at density 0, not density 1.0 as the claim states (the source fills
the disc with `olc::BLACK`). -/
theorem C2_counterexample :
    GetColourValue (DestructTerrain_CircleFull (uniformGrid 20 20 255) 10 10 0 1 4) 10 8 = 0 ∧
    GetColourValue (DestructTerrain_CircleFull (uniformGrid 20 20 255) 10 10 0 1 4) 10 8 ≠ 1 := by
  have h : GetColourValue (DestructTerrain_CircleFull (uniformGrid 20 20 255) 10 10 0 1 4)
      10 8 = 0 := by
    unfold DestructTerrain_CircleFull FillCircleVal GetColourValue Grid.getPixel Grid.inb
      uniformGrid truncQ
    norm_num
  exact ⟨h, by rw [h]; norm_num⟩

lemma fillCircleVal_inb (g : Grid) (cx cy radius : ℤ) (v : ℕ) (a b : ℤ) :
    (FillCircleVal g cx cy radius v).inb a b = g.inb a b := rfl

/-- C2 amended: after `DestructTerrain_CircleFull` with radius `r`, every cell
within Euclidean distance `r` of the offset centre (the hit cell moved backward
along the direction by `radius - 2`, truncated to integer coordinates) has
density 0.0 — not 1.0 — unconditionally and with no falloff, and every cell at
squared distance greater than `r^2` (in particular at distance `r + 1`) is
unchanged. -/
theorem C2_circle_full (g : Grid) (vx vy dx dy : ℚ) (radius cx cy a b : ℤ)
    (hcx : cx = truncQ (vx - dx * ((radius : ℚ) - 2)))
    (hcy : cy = truncQ (vy - dy * ((radius : ℚ) - 2))) :
    ((a - cx) * (a - cx) + (b - cy) * (b - cy) ≤ radius * radius →
      GetColourValue (DestructTerrain_CircleFull g vx vy dx dy radius) a b = 0) ∧
    (radius * radius < (a - cx) * (a - cx) + (b - cy) * (b - cy) →
      (DestructTerrain_CircleFull g vx vy dx dy radius).cell a b = g.cell a b) := by
  subst hcx hcy
  constructor
  · intro hd
    unfold DestructTerrain_CircleFull GetColourValue Grid.getPixel
    rw [fillCircleVal_inb]
    unfold FillCircleVal
    by_cases hb : g.inb a b
    · simp only [hb, if_true]
      simp only [hd, and_true, if_true, true_and]
      norm_num
    · simp only [hb, if_false]
      norm_num
  · intro hd
    unfold DestructTerrain_CircleFull FillCircleVal
    have : ¬((a - truncQ (vx - dx * ((radius : ℚ) - 2))) *
        (a - truncQ (vx - dx * ((radius : ℚ) - 2))) +
        (b - truncQ (vy - dy * ((radius : ℚ) - 2))) *
        (b - truncQ (vy - dy * ((radius : ℚ) - 2))) ≤ radius * radius) := by omega
    simp only [this, false_and, if_false]

/-- Witness for C2 amended at a concrete grid: the offset centre is cleared to
density 0 and a cell at distance 5 > radius 4 keeps its value. -/
theorem C2_witness :
    GetColourValue (DestructTerrain_CircleFull (uniformGrid 20 20 255) 10 10 0 1 4) 10 8 = 0 ∧
    (DestructTerrain_CircleFull (uniformGrid 20 20 255) 10 10 0 1 4).cell 15 8 =
      (uniformGrid 20 20 255).cell 15 8 := by
  have hcx : (10 : ℤ) = truncQ (10 - 0 * (((4 : ℤ) : ℚ) - 2)) := by norm_num [truncQ]
  have hcy : (8 : ℤ) = truncQ (10 - 1 * (((4 : ℤ) : ℚ) - 2)) := by norm_num [truncQ]
  have h1 := C2_circle_full (uniformGrid 20 20 255) 10 10 0 1 4 10 8 10 8 hcx hcy
  have h2 := C2_circle_full (uniformGrid 20 20 255) 10 10 0 1 4 10 8 15 8 hcx hcy
  exact ⟨h1.1 (by norm_num), h2.2 (by norm_num)⟩

lemma get_index_bounds (e x y : ℤ) (he : 0 ≤ e) (hx1 : -e ≤ x) (hx2 : x ≤ e)
    (hy1 : -e ≤ y) (hy2 : y ≤ e) :
    0 ≤ BlockBuffer.get_index (-e) (-e) e x y ∧
      BlockBuffer.get_index (-e) (-e) e x y < (2*e+1) * (2*e+1) := by
  unfold BlockBuffer.get_index
  constructor
  · nlinarith
  · nlinarith

/-- C10: for every brush radius `b >= 1` and blend range `r >= 0`, every
`BlockBuffer` access of the naive BlendBall (window `[-b, b]^2`, accessed at
loop coordinates `x, y ∈ [-b, b]`) and of the separable BlendBall (window
`[-(b+r), b+r]^2`; the horizontal pass writes `x ∈ [-b, b], y ∈ [-(b+r), b+r]`,
the vertical pass and final pass read `(x, y + oy)` with `x, y ∈ [-b, b]` and
`|oy| <= r`) stays inside the inclusive window the buffer was constructed with,
so the unchecked flat index of `BlockBuffer::get_index` is within the backing
array bounds `[0, x_size * y_size)`. -/
theorem C10_blockbuffer_safe (b r : ℤ) (hb : 1 ≤ b) (hr : 0 ≤ r) :
    (∀ x y : ℤ, -b ≤ x → x ≤ b → -b ≤ y → y ≤ b →
      0 ≤ BlockBuffer.get_index (-b) (-b) b x y ∧
        BlockBuffer.get_index (-b) (-b) b x y < (2*b+1) * (2*b+1)) ∧
    (∀ x y : ℤ, -b ≤ x → x ≤ b → -(b+r) ≤ y → y ≤ b + r →
      0 ≤ BlockBuffer.get_index (-(b+r)) (-(b+r)) (b+r) x y ∧
        BlockBuffer.get_index (-(b+r)) (-(b+r)) (b+r) x y < (2*(b+r)+1) * (2*(b+r)+1)) ∧
    (∀ x y oy : ℤ, -b ≤ x → x ≤ b → -b ≤ y → y ≤ b → -r ≤ oy → oy ≤ r →
      0 ≤ BlockBuffer.get_index (-(b+r)) (-(b+r)) (b+r) x (y + oy) ∧
        BlockBuffer.get_index (-(b+r)) (-(b+r)) (b+r) x (y + oy) < (2*(b+r)+1) * (2*(b+r)+1)) := by
  refine ⟨fun x y hx1 hx2 hy1 hy2 => get_index_bounds b x y (by omega) hx1 hx2 hy1 hy2,
    fun x y hx1 hx2 hy1 hy2 => get_index_bounds (b+r) x y (by omega) (by omega) (by omega) hy1 hy2,
    fun x y oy hx1 hx2 hy1 hy2 ho1 ho2 => get_index_bounds (b+r) x (y+oy) (by omega) (by omega)
      (by omega) (by omega) (by omega)⟩

/-- Witness for C10 at brush radius 2, blend range 1 and a sample access. -/
theorem C10_witness :
    (0 ≤ BlockBuffer.get_index (-2) (-2) 2 0 1 ∧
      BlockBuffer.get_index (-2) (-2) 2 0 1 < 5 * 5) ∧
    (0 ≤ BlockBuffer.get_index (-3) (-3) 3 2 (-3) ∧
      BlockBuffer.get_index (-3) (-3) 3 2 (-3) < 7 * 7) ∧
    (0 ≤ BlockBuffer.get_index (-3) (-3) 3 2 (2 + 1) ∧
      BlockBuffer.get_index (-3) (-3) 3 2 (2 + 1) < 7 * 7) := by
  have h := C10_blockbuffer_safe 2 1 (by norm_num) (by norm_num)
  exact ⟨h.1 0 1 (by norm_num) (by norm_num) (by norm_num) (by norm_num),
    h.2.1 2 (-3) (by norm_num) (by norm_num) (by norm_num) (by norm_num),
    h.2.2 2 2 1 (by norm_num) (by norm_num) (by norm_num) (by norm_num) (by norm_num) (by norm_num)⟩

lemma sweep_cons_range (c d : ℚ) (t : ℕ) :
    c :: (List.range (t + 1)).map (fun (k : ℕ) => c + d + (k : ℚ) * d) =
      (List.range (t + 1 + 1)).map (fun (k : ℕ) => c + (k : ℚ) * d) := by
  conv_rhs => rw [List.range_succ_eq_map]
  rw [List.map_cons, List.map_map]
  congr 1
  · norm_num
  · apply List.map_congr_left
    intro k _
    simp only [Function.comp_apply]
    push_cast
    ring

lemma sweepAngles_eq (A s : ℚ) (hs : 0 < s) :
    ∀ (fuel : ℕ) (i : ℚ), i ≤ A → (⌊(A - i) / s⌋).toNat < fuel →
      sweepAngles A s fuel i =
        (List.range ((⌊(A - i) / s⌋).toNat + 1)).map (fun (k : ℕ) => i + (k : ℚ) * s) := by
  intro fuel
  induction fuel with
  | zero => intro i hi hf; omega
  | succ n ih =>
    intro i hi hf
    have hge : 0 ≤ (A - i) / s := div_nonneg (by linarith) hs.le
    have hm0 : 0 ≤ ⌊(A - i) / s⌋ := Int.floor_nonneg.2 hge
    simp only [sweepAngles, if_pos hi]
    by_cases h2 : i + s ≤ A
    · have hm1 : 1 ≤ ⌊(A - i) / s⌋ := by
        have h3 : (1 : ℚ) ≤ (A - i) / s := by
          rw [le_div_iff hs]
          linarith
        exact_mod_cast Int.le_floor.2 (by exact_mod_cast h3)
      have hstep : ⌊(A - (i + s)) / s⌋ = ⌊(A - i) / s⌋ - 1 := by
        have h4 : (A - (i + s)) / s = (A - i) / s - ((1 : ℤ) : ℚ) := by
          push_cast
          field_simp
          ring
        rw [h4, Int.floor_sub_int]
      have hf2 : (⌊(A - (i + s)) / s⌋).toNat < n := by
        rw [hstep]; omega
      rw [ih (i + s) h2 hf2, hstep]
      have ht : (⌊(A - i) / s⌋ - 1).toNat + 1 + 1 = (⌊(A - i) / s⌋).toNat + 1 := by omega
      rw [← ht]
      exact sweep_cons_range i s ((⌊(A - i) / s⌋ - 1).toNat)
    · have hmz : ⌊(A - i) / s⌋ = 0 := by
        have hlt : (A - i) / s < 1 := by
          rw [div_lt_one hs]
          linarith
        exact Int.floor_eq_zero_iff.2 ⟨hge, hlt⟩
      have htail : sweepAngles A s n (i + s) = [] := by
        cases n with
        | zero => rfl
        | succ k => simp only [sweepAngles]; rw [if_neg (by linarith)]
      rw [htail, hmz]
      norm_num [List.range_succ]

/-- C8: for every half-angle `A > 0` and angular step `s > 0` (and enough loop
fuel), the cone sweeps of `DestructTerrain_GaussFractional` and
`RestoreTerrain_GaussFractional` cast exactly `floor(2*A/s) + 1` rays, one per
angle `-A + k*s` for `k = 0, ..., floor(2*A/s)`. -/
theorem C8_cone_ray_count (A s : ℚ) (fuel : ℕ) (hA : 0 < A) (hs : 0 < s)
    (hfuel : (⌊2 * A / s⌋).toNat < fuel) :
    ((DestructTerrain_GaussFractional_rayAngles A s fuel).length : ℤ) = ⌊2 * A / s⌋ + 1 ∧
    ((RestoreTerrain_GaussFractional_rayAngles A s fuel).length : ℤ) = ⌊2 * A / s⌋ + 1 ∧
    DestructTerrain_GaussFractional_rayAngles A s fuel =
      (List.range ((⌊2 * A / s⌋).toNat + 1)).map (fun (k : ℕ) => -A + (k : ℚ) * s) ∧
    RestoreTerrain_GaussFractional_rayAngles A s fuel =
      (List.range ((⌊2 * A / s⌋).toNat + 1)).map (fun (k : ℕ) => -A + (k : ℚ) * s) := by
  have h2A : (A - -A) / s = 2 * A / s := by ring_nf
  have key := sweepAngles_eq A s hs fuel (-A) (by linarith) (by rw [h2A]; exact hfuel)
  rw [h2A] at key
  have hm0 : 0 ≤ ⌊2 * A / s⌋ :=
    Int.floor_nonneg.2 (div_nonneg (by linarith) hs.le)
  have hlen : ((sweepAngles A s fuel (-A)).length : ℤ) = ⌊2 * A / s⌋ + 1 := by
    rw [key, List.length_map, List.length_range]
    omega
  exact ⟨hlen, hlen, key, key⟩

/-- Witness for C8 at the editor defaults: half-angle 50 degrees, step 0.5
degrees, giving 201 rays. -/
theorem C8_witness :
    ((DestructTerrain_GaussFractional_rayAngles 50 (1/2) 250).length : ℤ) = 200 + 1 ∧
    ((RestoreTerrain_GaussFractional_rayAngles 50 (1/2) 250).length : ℤ) = 200 + 1 := by
  have hf : (⌊2 * (50 : ℚ) / (1/2)⌋) = 200 := by norm_num
  have h := C8_cone_ray_count 50 (1/2) 250 (by norm_num) (by norm_num) (by rw [hf]; norm_num)
  rw [hf] at h
  exact ⟨h.1, h.2.1⟩

lemma ddaLoop_succ (w h : ℤ) (test : ℤ → ℤ → Bool) (sx sy : ℤ) (ux uy : Option ℚ)
    (maxDist : ℚ) (n : ℕ) (x y : ℤ) (lenx leny dist : Option ℚ) (prev : ℤ × ℤ) :
    ddaLoop w h test sx sy ux uy maxDist (n + 1) x y lenx leny dist prev =
      if oLt dist (some maxDist) then
        if oLt lenx leny then
          (if inBoundsB w h (x + sx) y && test (x + sx) y then
            ⟨true, x + sx, y, x, y, [(x + sx, y)]⟩
          else
            let r := ddaLoop w h test sx sy ux uy maxDist n (x + sx) y (oAdd lenx ux) leny
              lenx (x, y)
            ⟨r.found, r.cx, r.cy, r.px, r.py, (x + sx, y) :: r.visited⟩)
        else
          (if inBoundsB w h x (y + sy) && test x (y + sy) then
            ⟨true, x, y + sy, x, y, [(x, y + sy)]⟩
          else
            let r := ddaLoop w h test sx sy ux uy maxDist n x (y + sy) lenx (oAdd leny uy)
              leny (x, y)
            ⟨r.found, r.cx, r.cy, r.px, r.py, (x, y + sy) :: r.visited⟩)
      else ⟨false, x, y, prev.1, prev.2, []⟩ := rfl

lemma ddaLoop_found (w h : ℤ) (test : ℤ → ℤ → Bool) (sx sy : ℤ) (ux uy : Option ℚ)
    (maxDist : ℚ) :
    ∀ (fuel : ℕ) (x y : ℤ) (lenx leny dist : Option ℚ) (prev : ℤ × ℤ),
      (ddaLoop w h test sx sy ux uy maxDist fuel x y lenx leny dist prev).found = true →
      ((ddaLoop w h test sx sy ux uy maxDist fuel x y lenx leny dist prev).cx,
          (ddaLoop w h test sx sy ux uy maxDist fuel x y lenx leny dist prev).cy) ∈
        (ddaLoop w h test sx sy ux uy maxDist fuel x y lenx leny dist prev).visited ∧
      inBoundsB w h (ddaLoop w h test sx sy ux uy maxDist fuel x y lenx leny dist prev).cx
        (ddaLoop w h test sx sy ux uy maxDist fuel x y lenx leny dist prev).cy = true ∧
      test (ddaLoop w h test sx sy ux uy maxDist fuel x y lenx leny dist prev).cx
        (ddaLoop w h test sx sy ux uy maxDist fuel x y lenx leny dist prev).cy = true := by
  intro fuel
  induction fuel with
  | zero =>
    intro x y lenx leny dist prev hf
    simp [ddaLoop] at hf
  | succ n ih =>
    intro x y lenx leny dist prev hf
    rw [ddaLoop_succ] at hf ⊢
    split_ifs at hf ⊢ with h1 h2 h3 h4
    · rw [Bool.and_eq_true] at h3
      exact ⟨List.mem_singleton.mpr rfl, h3.1, h3.2⟩
    · obtain ⟨hm, hb, ht⟩ := ih (x + sx) y (oAdd lenx ux) leny lenx (x, y) hf
      exact ⟨List.mem_cons_of_mem _ hm, hb, ht⟩
    · rw [Bool.and_eq_true] at h4
      exact ⟨List.mem_singleton.mpr rfl, h4.1, h4.2⟩
    · obtain ⟨hm, hb, ht⟩ := ih x (y + sy) lenx (oAdd leny uy) leny (x, y) hf
      exact ⟨List.mem_cons_of_mem _ hm, hb, ht⟩

lemma ddaLoop_visited_mono (w h : ℤ) (test : ℤ → ℤ → Bool) (sx sy : ℤ) (ux uy : Option ℚ)
    (maxDist : ℚ) (hsx : sx = 1 ∨ sx = -1) (hsy : sy = 1 ∨ sy = -1) :
    ∀ (fuel : ℕ) (x y : ℤ) (lenx leny dist : Option ℚ) (prev : ℤ × ℤ),
      ∀ c ∈ (ddaLoop w h test sx sy ux uy maxDist fuel x y lenx leny dist prev).visited,
        x * sx + y * sy < c.1 * sx + c.2 * sy := by
  intro fuel
  induction fuel with
  | zero =>
    intro x y lenx leny dist prev c hc
    simp [ddaLoop] at hc
  | succ n ih =>
    intro x y lenx leny dist prev c hc
    have hsx2 : sx * sx = 1 := by rcases hsx with rfl | rfl <;> norm_num
    have hsy2 : sy * sy = 1 := by rcases hsy with rfl | rfl <;> norm_num
    rw [ddaLoop_succ] at hc
    split_ifs at hc with h1 h2 h3 h4
    · rw [List.mem_singleton] at hc
      subst hc
      show x * sx + y * sy < (x + sx) * sx + y * sy
      nlinarith [hsx2]
    · rcases List.mem_cons.mp hc with hc | hc
      · subst hc
        show x * sx + y * sy < (x + sx) * sx + y * sy
        nlinarith [hsx2]
      · have := ih (x + sx) y (oAdd lenx ux) leny lenx (x, y) c hc
        nlinarith [hsx2]
    · rw [List.mem_singleton] at hc
      subst hc
      show x * sx + y * sy < x * sx + (y + sy) * sy
      nlinarith [hsy2]
    · rcases List.mem_cons.mp hc with hc | hc
      · subst hc
        show x * sx + y * sy < x * sx + (y + sy) * sy
        nlinarith [hsy2]
      · have := ih x (y + sy) lenx (oAdd leny uy) leny (x, y) c hc
        nlinarith [hsy2]
    · simp at hc

/-- Relation between the final cell, the previous tile and the visited trace of
a DDA walk: either no step was taken (the final cell is the entry cell and the
previous tile is the one passed in), or the previous tile appears immediately
before the final cell in the trace of visited cells prefixed by the entry cell. -/
def PrevSpec (cur prev : ℤ × ℤ) (r : DdaResult) : Prop :=
  (r.visited = [] ∧ r.cx = cur.1 ∧ r.cy = cur.2 ∧ (r.px, r.py) = prev) ∨
  ∃ pre, cur :: r.visited = pre ++ [(r.px, r.py), (r.cx, r.cy)]

lemma ddaLoop_prevSpec (w h : ℤ) (test : ℤ → ℤ → Bool) (sx sy : ℤ) (ux uy : Option ℚ)
    (maxDist : ℚ) :
    ∀ (fuel : ℕ) (x y : ℤ) (lenx leny dist : Option ℚ) (prev : ℤ × ℤ),
      PrevSpec (x, y) prev (ddaLoop w h test sx sy ux uy maxDist fuel x y lenx leny dist prev) := by
  intro fuel
  induction fuel with
  | zero =>
    intro x y lenx leny dist prev
    exact Or.inl ⟨rfl, rfl, rfl, rfl⟩
  | succ n ih =>
    intro x y lenx leny dist prev
    rw [ddaLoop_succ]
    split_ifs with h1 h2 h3 h4
    · exact Or.inr ⟨[], rfl⟩
    · rcases ih (x + sx) y (oAdd lenx ux) leny lenx (x, y) with hL | ⟨pre, hpre⟩
      · refine Or.inr ⟨[], ?_⟩
        obtain ⟨hpx, hpy⟩ := Prod.mk.inj hL.2.2.2
        show (x, y) :: (x + sx, y) ::
          (ddaLoop w h test sx sy ux uy maxDist n (x + sx) y (oAdd lenx ux) leny lenx
            (x, y)).visited =
          [] ++ [((ddaLoop w h test sx sy ux uy maxDist n (x + sx) y (oAdd lenx ux) leny lenx
              (x, y)).px,
            (ddaLoop w h test sx sy ux uy maxDist n (x + sx) y (oAdd lenx ux) leny lenx
              (x, y)).py),
            ((ddaLoop w h test sx sy ux uy maxDist n (x + sx) y (oAdd lenx ux) leny lenx
              (x, y)).cx,
            (ddaLoop w h test sx sy ux uy maxDist n (x + sx) y (oAdd lenx ux) leny lenx
              (x, y)).cy)]
        rw [hL.1, hpx, hpy, hL.2.1, hL.2.2.1]
        rfl
      · refine Or.inr ⟨(x, y) :: pre, ?_⟩
        show (x, y) :: (x + sx, y) ::
          (ddaLoop w h test sx sy ux uy maxDist n (x + sx) y (oAdd lenx ux) leny lenx
            (x, y)).visited = _
        rw [List.cons_append]
        exact congrArg _ hpre
    · exact Or.inr ⟨[], rfl⟩
    · rcases ih x (y + sy) lenx (oAdd leny uy) leny (x, y) with hL | ⟨pre, hpre⟩
      · refine Or.inr ⟨[], ?_⟩
        obtain ⟨hpx, hpy⟩ := Prod.mk.inj hL.2.2.2
        show (x, y) :: (x, y + sy) ::
          (ddaLoop w h test sx sy ux uy maxDist n x (y + sy) lenx (oAdd leny uy) leny
            (x, y)).visited =
          [] ++ [((ddaLoop w h test sx sy ux uy maxDist n x (y + sy) lenx (oAdd leny uy) leny
              (x, y)).px,
            (ddaLoop w h test sx sy ux uy maxDist n x (y + sy) lenx (oAdd leny uy) leny
              (x, y)).py),
            ((ddaLoop w h test sx sy ux uy maxDist n x (y + sy) lenx (oAdd leny uy) leny
              (x, y)).cx,
            (ddaLoop w h test sx sy ux uy maxDist n x (y + sy) lenx (oAdd leny uy) leny
              (x, y)).cy)]
        rw [hL.1, hpx, hpy, hL.2.1, hL.2.2.1]
        rfl
      · refine Or.inr ⟨(x, y) :: pre, ?_⟩
        show (x, y) :: (x, y + sy) ::
          (ddaLoop w h test sx sy ux uy maxDist n x (y + sy) lenx (oAdd leny uy) leny
            (x, y)).visited = _
        rw [List.cons_append]
        exact congrArg _ hpre
    · exact Or.inl ⟨rfl, rfl, rfl, rfl⟩

lemma ddaLoop_notFound (w h : ℤ) (test : ℤ → ℤ → Bool) (sx sy : ℤ) (ux uy : Option ℚ)
    (maxDist : ℚ) :
    ∀ (fuel : ℕ) (x y : ℤ) (lenx leny dist : Option ℚ) (prev : ℤ × ℤ),
      (ddaLoop w h test sx sy ux uy maxDist fuel x y lenx leny dist prev).found = false →
      (ddaLoop w h test sx sy ux uy maxDist fuel x y lenx leny dist prev).visited = [] ∨
      ¬(inBoundsB w h (ddaLoop w h test sx sy ux uy maxDist fuel x y lenx leny dist prev).cx
          (ddaLoop w h test sx sy ux uy maxDist fuel x y lenx leny dist prev).cy = true ∧
        test (ddaLoop w h test sx sy ux uy maxDist fuel x y lenx leny dist prev).cx
          (ddaLoop w h test sx sy ux uy maxDist fuel x y lenx leny dist prev).cy = true) := by
  intro fuel
  induction fuel with
  | zero =>
    intro x y lenx leny dist prev _
    exact Or.inl rfl
  | succ n ih =>
    intro x y lenx leny dist prev hf
    rw [ddaLoop_succ] at hf ⊢
    split_ifs at hf ⊢ with h1 h2 h3 h4
    · rcases ih (x + sx) y (oAdd lenx ux) leny lenx (x, y) hf with hL | hR
      · refine Or.inr ?_
        intro hc
        dsimp only at hc
        apply h3
        have hcx : (ddaLoop w h test sx sy ux uy maxDist n (x + sx) y (oAdd lenx ux) leny lenx
            (x, y)).cx = x + sx := by
          rcases ddaLoop_prevSpec w h test sx sy ux uy maxDist n (x + sx) y (oAdd lenx ux)
            leny lenx (x, y) with hP | ⟨pre, hpre⟩
          · exact hP.2.1
          · rw [hL] at hpre
            have := congrArg List.length hpre
            simp at this
        have hcy : (ddaLoop w h test sx sy ux uy maxDist n (x + sx) y (oAdd lenx ux) leny lenx
            (x, y)).cy = y := by
          rcases ddaLoop_prevSpec w h test sx sy ux uy maxDist n (x + sx) y (oAdd lenx ux)
            leny lenx (x, y) with hP | ⟨pre, hpre⟩
          · exact hP.2.2.1
          · rw [hL] at hpre
            have := congrArg List.length hpre
            simp at this
        rw [hcx, hcy] at hc
        rw [Bool.and_eq_true]
        exact hc
      · exact Or.inr hR
    · rcases ih x (y + sy) lenx (oAdd leny uy) leny (x, y) hf with hL | hR
      · refine Or.inr ?_
        intro hc
        dsimp only at hc
        apply h4
        have hcx : (ddaLoop w h test sx sy ux uy maxDist n x (y + sy) lenx (oAdd leny uy) leny
            (x, y)).cx = x := by
          rcases ddaLoop_prevSpec w h test sx sy ux uy maxDist n x (y + sy) lenx (oAdd leny uy)
            leny (x, y) with hP | ⟨pre, hpre⟩
          · exact hP.2.1
          · rw [hL] at hpre
            have := congrArg List.length hpre
            simp at this
        have hcy : (ddaLoop w h test sx sy ux uy maxDist n x (y + sy) lenx (oAdd leny uy) leny
            (x, y)).cy = y + sy := by
          rcases ddaLoop_prevSpec w h test sx sy ux uy maxDist n x (y + sy) lenx (oAdd leny uy)
            leny (x, y) with hP | ⟨pre, hpre⟩
          · exact hP.2.2.1
          · rw [hL] at hpre
            have := congrArg List.length hpre
            simp at this
        rw [hcx, hcy] at hc
        rw [Bool.and_eq_true]
        exact hc
      · exact Or.inr hR
    · exact Or.inl rfl

lemma getPixel_ne_zero_inb (g : Grid) (x y : ℤ) (hne : g.getPixel x y ≠ 0) :
    g.inb x y = true := by
  unfold Grid.getPixel at hne
  by_cases hb : g.inb x y
  · exact hb
  · simp [hb] at hne

/-- A 5x5 grid whose only non-empty cell is the fully white cell `(2, 2)`. -/
def singleCellGrid : Grid := ⟨5, 5, fun a b => if a = 2 ∧ b = 2 then 255 else 0⟩

/-- A 10x10 grid whose only non-empty cell is `(3, 0)` at density `128/255`
(non-empty but not fully white). -/
def halfCellGrid : Grid := ⟨10, 10, fun a b => if a = 3 ∧ b = 0 then 128 else 0⟩

/-- A 10x10 grid whose only non-empty cell is the fully white cell `(3, 0)`. -/
def fullCellGrid : Grid := ⟨10, 10, fun a b => if a = 3 ∧ b = 0 then 255 else 0⟩

set_option maxHeartbeats 1600000 in
/-- C4 counterexample: a cast whose origin lies left of the grid steps to the
out-of-bounds cell `(-2, 2)`, yet the traversal does not terminate there: it
continues, re-enters the grid and returns `hit = true` on the solid cell, so
"terminates at that point and returns hit = false" is false as stated. -/
theorem C4_counterexample :
    (RaycastPixel singleCellGrid (-3) 2 1 1 (some 1) none (some 1) none 10 8).found = true ∧
    ((-2 : ℤ), (2 : ℤ)) ∈
      (RaycastPixel singleCellGrid (-3) 2 1 1 (some 1) none (some 1) none 10 8).visited ∧
    inBoundsB singleCellGrid.w singleCellGrid.h (-2) 2 = false := by
  refine ⟨?_, ?_, ?_⟩ <;>
    norm_num [RaycastPixel, ddaLoop, oLt, oAdd, inBoundsB, MapLocationIsEmpty,
      Grid.getPixel, Grid.inb, singleCellGrid]

/-- C4 amended: stepping out of the grid does not stop the DDA loop; instead an
out-of-bounds cell never passes the occupancy test, so a cast all of whose
visited cells are out of bounds returns `hit = false`, for each of the three
raycast variants. -/
theorem C4_oob_never_hits (g : Grid) (startx starty sx sy : ℤ)
    (ux uy lenx0 leny0 : Option ℚ) (maxDist : ℚ) (fuel : ℕ)
    (hall : ∀ c ∈ (RaycastPixel g startx starty sx sy ux uy lenx0 leny0 maxDist fuel).visited,
      inBoundsB g.w g.h c.1 c.2 = false)
    (hall2 : ∀ c ∈
        (RaycastPixelTarget g startx starty sx sy ux uy lenx0 leny0 maxDist fuel).visited,
      inBoundsB g.w g.h c.1 c.2 = false) :
    (RaycastPixel g startx starty sx sy ux uy lenx0 leny0 maxDist fuel).found = false ∧
    (RaycastPrePixel g startx starty sx sy ux uy lenx0 leny0 maxDist fuel).found = false ∧
    (RaycastPixelTarget g startx starty sx sy ux uy lenx0 leny0 maxDist fuel).found = false := by
  have hpix : (RaycastPixel g startx starty sx sy ux uy lenx0 leny0 maxDist fuel).found
      = false := by
    cases hfound : (RaycastPixel g startx starty sx sy ux uy lenx0 leny0 maxDist fuel).found
    · rfl
    · exfalso
      unfold RaycastPixel at hfound hall
      obtain ⟨hm, hb, _⟩ := ddaLoop_found g.w g.h
        (fun x y => !MapLocationIsEmpty g x y) sx sy ux uy maxDist fuel
        startx starty lenx0 leny0 (some 0) (startx, starty) hfound
      exact absurd (hb.symm.trans (hall _ hm)) (by simp)
  have htgt : (RaycastPixelTarget g startx starty sx sy ux uy lenx0 leny0 maxDist fuel).found
      = false := by
    cases hfound : (RaycastPixelTarget g startx starty sx sy ux uy lenx0 leny0 maxDist
        fuel).found
    · rfl
    · exfalso
      unfold RaycastPixelTarget at hfound hall2
      obtain ⟨hm, hb, _⟩ := ddaLoop_found g.w g.h
        (fun x y => decide ((1 : ℚ)/2 ≤ GetColourValue g x y)) sx sy ux uy maxDist fuel
        startx starty lenx0 leny0 (some 0) (startx, starty) hfound
      exact absurd (hb.symm.trans (hall2 _ hm)) (by simp)
  exact ⟨hpix, hpix, htgt⟩

set_option maxHeartbeats 1600000 in
/-- Witness for C4 amended: a cast from `(10, 0)` rightward out of the 5x5 grid
visits only out-of-bounds cells and misses in all three variants. -/
theorem C4_witness :
    (RaycastPixel singleCellGrid 10 0 1 1 (some 1) none (some 1) none 5 8).found = false ∧
    (RaycastPrePixel singleCellGrid 10 0 1 1 (some 1) none (some 1) none 5 8).found = false ∧
    (RaycastPixelTarget singleCellGrid 10 0 1 1 (some 1) none (some 1) none 5 8).found
      = false := by
  have hv : (RaycastPixel singleCellGrid 10 0 1 1 (some 1) none (some 1) none 5 8).visited =
      [(11, 0), (12, 0), (13, 0), (14, 0), (15, 0)] := by
    norm_num [RaycastPixel, ddaLoop, oLt, oAdd, inBoundsB, MapLocationIsEmpty,
      Grid.getPixel, Grid.inb, singleCellGrid]
  have hv2 : (RaycastPixelTarget singleCellGrid 10 0 1 1 (some 1) none (some 1) none
      5 8).visited = [(11, 0), (12, 0), (13, 0), (14, 0), (15, 0)] := by
    norm_num [RaycastPixelTarget, ddaLoop, oLt, oAdd, inBoundsB, GetColourValue,
      Grid.getPixel, Grid.inb, singleCellGrid]
  refine C4_oob_never_hits singleCellGrid 10 0 1 1 (some 1) none (some 1) none 5 8 ?_ ?_
  · intro c hc
    rw [hv] at hc
    fin_cases hc <;> decide
  · intro c hc
    rw [hv2] at hc
    fin_cases hc <;> decide

/-- C9: the DDA walk advances off the origin cell before the first occupancy
test and, because both per-axis steps keep their sign, never returns to it; so
on a grid whose only qualifying cell is the cell containing the ray origin,
every raycast variant returns `hit = false`. -/
theorem C9_origin_not_examined (g : Grid) (startx starty sx sy : ℤ)
    (ux uy lenx0 leny0 : Option ℚ) (maxDist : ℚ) (fuel : ℕ)
    (hsx : sx = 1 ∨ sx = -1) (hsy : sy = 1 ∨ sy = -1)
    (honly : ∀ x y : ℤ, inBoundsB g.w g.h x y = true → MapLocationIsEmpty g x y = false →
      x = startx ∧ y = starty)
    (honly2 : ∀ x y : ℤ, inBoundsB g.w g.h x y = true → (1 : ℚ)/2 ≤ GetColourValue g x y →
      x = startx ∧ y = starty) :
    (∀ c ∈ (RaycastPixel g startx starty sx sy ux uy lenx0 leny0 maxDist fuel).visited,
      c ≠ (startx, starty)) ∧
    (RaycastPixel g startx starty sx sy ux uy lenx0 leny0 maxDist fuel).found = false ∧
    (RaycastPrePixel g startx starty sx sy ux uy lenx0 leny0 maxDist fuel).found = false ∧
    (RaycastPixelTarget g startx starty sx sy ux uy lenx0 leny0 maxDist fuel).found
      = false := by
  have hne : ∀ (test : ℤ → ℤ → Bool) c,
      c ∈ (ddaLoop g.w g.h test sx sy ux uy maxDist fuel startx starty lenx0 leny0 (some 0)
        (startx, starty)).visited → c ≠ (startx, starty) := by
    intro test c hc heq
    have := ddaLoop_visited_mono g.w g.h test sx sy ux uy maxDist hsx hsy fuel
      startx starty lenx0 leny0 (some 0) (startx, starty) c hc
    rw [heq] at this
    exact absurd this (by simp)
  have hpix : (RaycastPixel g startx starty sx sy ux uy lenx0 leny0 maxDist fuel).found
      = false := by
    cases hfound : (RaycastPixel g startx starty sx sy ux uy lenx0 leny0 maxDist fuel).found
    · rfl
    · exfalso
      unfold RaycastPixel at hfound
      obtain ⟨hm, hb, ht⟩ := ddaLoop_found g.w g.h
        (fun x y => !MapLocationIsEmpty g x y) sx sy ux uy maxDist fuel
        startx starty lenx0 leny0 (some 0) (startx, starty) hfound
      have hemp : MapLocationIsEmpty g
          (ddaLoop g.w g.h (fun x y => !MapLocationIsEmpty g x y) sx sy ux uy maxDist fuel
            startx starty lenx0 leny0 (some 0) (startx, starty)).cx
          (ddaLoop g.w g.h (fun x y => !MapLocationIsEmpty g x y) sx sy ux uy maxDist fuel
            startx starty lenx0 leny0 (some 0) (startx, starty)).cy = false := by
        revert ht
        cases MapLocationIsEmpty g
          (ddaLoop g.w g.h (fun x y => !MapLocationIsEmpty g x y) sx sy ux uy maxDist fuel
            startx starty lenx0 leny0 (some 0) (startx, starty)).cx
          (ddaLoop g.w g.h (fun x y => !MapLocationIsEmpty g x y) sx sy ux uy maxDist fuel
            startx starty lenx0 leny0 (some 0) (startx, starty)).cy <;> simp
      obtain ⟨he1, he2⟩ := honly _ _ hb hemp
      exact hne _ _ hm (by rw [he1, he2])
  have htgt : (RaycastPixelTarget g startx starty sx sy ux uy lenx0 leny0 maxDist fuel).found
      = false := by
    cases hfound : (RaycastPixelTarget g startx starty sx sy ux uy lenx0 leny0 maxDist
        fuel).found
    · rfl
    · exfalso
      unfold RaycastPixelTarget at hfound
      obtain ⟨hm, hb, ht⟩ := ddaLoop_found g.w g.h
        (fun x y => decide ((1 : ℚ)/2 ≤ GetColourValue g x y)) sx sy ux uy maxDist fuel
        startx starty lenx0 leny0 (some 0) (startx, starty) hfound
      obtain ⟨he1, he2⟩ := honly2 _ _ hb (of_decide_eq_true ht)
      exact hne _ _ hm (by rw [he1, he2])
  exact ⟨fun c hc => hne _ c hc, hpix, hpix, htgt⟩

/-- Witness for C9: on the grid whose only solid cell is `(2, 2)`, casting from
`(2, 2)` misses in all three variants. -/
theorem C9_witness :
    (RaycastPixel singleCellGrid 2 2 1 1 (some 1) none (some 1) none 10 20).found = false ∧
    (RaycastPrePixel singleCellGrid 2 2 1 1 (some 1) none (some 1) none 10 20).found = false ∧
    (RaycastPixelTarget singleCellGrid 2 2 1 1 (some 1) none (some 1) none 10 20).found
      = false := by
  have honly : ∀ x y : ℤ, inBoundsB singleCellGrid.w singleCellGrid.h x y = true →
      MapLocationIsEmpty singleCellGrid x y = false → x = 2 ∧ y = 2 := by
    intro x y hb he
    simp only [MapLocationIsEmpty, decide_eq_false_iff_not] at he
    by_cases hxy : x = 2 ∧ y = 2
    · exact hxy
    · exfalso
      apply he
      simp only [Grid.getPixel, singleCellGrid, hxy, if_false]
      split <;> rfl
  have honly2 : ∀ x y : ℤ, inBoundsB singleCellGrid.w singleCellGrid.h x y = true →
      (1 : ℚ)/2 ≤ GetColourValue singleCellGrid x y → x = 2 ∧ y = 2 := by
    intro x y hb he
    by_cases hxy : x = 2 ∧ y = 2
    · exact hxy
    · exfalso
      have hz : GetColourValue singleCellGrid x y = 0 := by
        simp only [GetColourValue, Grid.getPixel, singleCellGrid, hxy, if_false]
        split <;> norm_num
      rw [hz] at he
      norm_num at he
  have h := C9_origin_not_examined singleCellGrid 2 2 1 1 (some 1) none (some 1) none 10 20
    (Or.inl rfl) (Or.inl rfl) honly honly2
  exact ⟨h.2.1, h.2.2.1, h.2.2.2⟩

set_option maxHeartbeats 1600000 in
/-- C3 counterexample: casting toward the cell `(3, 0)` of density `128/255`
(non-empty but not fully white) returns `hit = true`, yet the reported cell is
the stopping cell `(3, 0)` itself, not the previously visited cell `(2, 0)`:
`RaycastPrePixel` only reports the previous cell when the final cell passes
`MapLocationIsFull`, not merely the stopping (non-empty) test. -/
theorem C3_counterexample :
    (RaycastPrePixel halfCellGrid 0 0 1 1 (some 1) none (some 1) none 6 8).found = true ∧
    RaycastPrePixelReported halfCellGrid 0 0 1 1 (some 1) none (some 1) none 6 8 = (3, 0) ∧
    ((RaycastPrePixel halfCellGrid 0 0 1 1 (some 1) none (some 1) none 6 8).px,
      (RaycastPrePixel halfCellGrid 0 0 1 1 (some 1) none (some 1) none 6 8).py) = (2, 0) ∧
    ((3 : ℤ), (0 : ℤ)) ≠ ((2 : ℤ), (0 : ℤ)) := by
  refine ⟨?_, ?_, ?_, by decide⟩ <;>
    norm_num [RaycastPrePixel, RaycastPrePixelReported, ddaLoop, oLt, oAdd, inBoundsB,
      MapLocationIsEmpty, MapLocationIsFull, Grid.getPixel, Grid.inb, halfCellGrid]

/-- C3 amended: when `RaycastPrePixel` returns `hit = true` and the stopping
cell is fully white, the reported cell is the cell visited immediately before
the stopping cell; when the stopping cell is non-empty but not fully white the
stopping cell itself is reported; and when `hit = false` the final visited cell
is reported. -/
theorem C3_pre_report (g : Grid) (startx starty sx sy : ℤ) (ux uy lenx0 leny0 : Option ℚ)
    (maxDist : ℚ) (fuel : ℕ) :
    ((RaycastPrePixel g startx starty sx sy ux uy lenx0 leny0 maxDist fuel).found = true →
      MapLocationIsFull g
          (RaycastPrePixel g startx starty sx sy ux uy lenx0 leny0 maxDist fuel).cx
          (RaycastPrePixel g startx starty sx sy ux uy lenx0 leny0 maxDist fuel).cy = true →
      RaycastPrePixelReported g startx starty sx sy ux uy lenx0 leny0 maxDist fuel =
        ((RaycastPrePixel g startx starty sx sy ux uy lenx0 leny0 maxDist fuel).px,
          (RaycastPrePixel g startx starty sx sy ux uy lenx0 leny0 maxDist fuel).py) ∧
      ∃ pre, (startx, starty) ::
          (RaycastPrePixel g startx starty sx sy ux uy lenx0 leny0 maxDist fuel).visited =
        pre ++ [((RaycastPrePixel g startx starty sx sy ux uy lenx0 leny0 maxDist fuel).px,
            (RaycastPrePixel g startx starty sx sy ux uy lenx0 leny0 maxDist fuel).py),
          ((RaycastPrePixel g startx starty sx sy ux uy lenx0 leny0 maxDist fuel).cx,
            (RaycastPrePixel g startx starty sx sy ux uy lenx0 leny0 maxDist fuel).cy)]) ∧
    (MapLocationIsFull g
        (RaycastPrePixel g startx starty sx sy ux uy lenx0 leny0 maxDist fuel).cx
        (RaycastPrePixel g startx starty sx sy ux uy lenx0 leny0 maxDist fuel).cy = false →
      RaycastPrePixelReported g startx starty sx sy ux uy lenx0 leny0 maxDist fuel =
        ((RaycastPrePixel g startx starty sx sy ux uy lenx0 leny0 maxDist fuel).cx,
          (RaycastPrePixel g startx starty sx sy ux uy lenx0 leny0 maxDist fuel).cy)) ∧
    ((RaycastPrePixel g startx starty sx sy ux uy lenx0 leny0 maxDist fuel).found = false →
      RaycastPrePixelReported g startx starty sx sy ux uy lenx0 leny0 maxDist fuel =
        ((RaycastPrePixel g startx starty sx sy ux uy lenx0 leny0 maxDist fuel).cx,
          (RaycastPrePixel g startx starty sx sy ux uy lenx0 leny0 maxDist fuel).cy)) := by
  refine ⟨?_, ?_, ?_⟩
  · intro hfound hfull
    constructor
    · unfold RaycastPrePixelReported
      simp only [hfull, if_true]
    · unfold RaycastPrePixel at hfound ⊢
      rcases ddaLoop_prevSpec g.w g.h (fun x y => !MapLocationIsEmpty g x y) sx sy ux uy
        maxDist fuel startx starty lenx0 leny0 (some 0) (startx, starty) with hL | hR
      · exfalso
        obtain ⟨hm, _, _⟩ := ddaLoop_found g.w g.h
          (fun x y => !MapLocationIsEmpty g x y) sx sy ux uy maxDist fuel
          startx starty lenx0 leny0 (some 0) (startx, starty) hfound
        rw [hL.1] at hm
        simp at hm
      · exact hR
  · intro hfull
    unfold RaycastPrePixelReported
    simp only [hfull, Bool.false_eq_true, if_false]
  · intro hfound
    unfold RaycastPrePixelReported RaycastPrePixel
    unfold RaycastPrePixel at hfound
    simp only [MapLocationIsEmpty] at hfound ⊢
    cases hfull : MapLocationIsFull g
        (ddaLoop g.w g.h (fun x y => !decide (g.getPixel x y = 0)) sx sy ux uy maxDist fuel
          startx starty lenx0 leny0 (some 0) (startx, starty)).cx
        (ddaLoop g.w g.h (fun x y => !decide (g.getPixel x y = 0)) sx sy ux uy maxDist fuel
          startx starty lenx0 leny0 (some 0) (startx, starty)).cy
    · simp only [hfull, Bool.false_eq_true, if_false]
    · have h255 : g.getPixel
          (ddaLoop g.w g.h (fun x y => !decide (g.getPixel x y = 0)) sx sy ux uy maxDist fuel
            startx starty lenx0 leny0 (some 0) (startx, starty)).cx
          (ddaLoop g.w g.h (fun x y => !decide (g.getPixel x y = 0)) sx sy ux uy maxDist fuel
            startx starty lenx0 leny0 (some 0) (startx, starty)).cy = 255 :=
        of_decide_eq_true hfull
      rcases ddaLoop_notFound g.w g.h (fun x y => !decide (g.getPixel x y = 0)) sx sy ux uy
        maxDist fuel startx starty lenx0 leny0 (some 0) (startx, starty) hfound with hL | hR
      · rcases ddaLoop_prevSpec g.w g.h (fun x y => !decide (g.getPixel x y = 0)) sx sy ux uy
          maxDist fuel startx starty lenx0 leny0 (some 0) (startx, starty) with hP | ⟨pre, hpre⟩
        · simp only [hfull, if_true]
          rw [hP.2.1, hP.2.2.1, hP.2.2.2]
        · exfalso
          rw [hL] at hpre
          have := congrArg List.length hpre
          simp at this
      · exfalso
        apply hR
        have hne0 : g.getPixel
            (ddaLoop g.w g.h (fun x y => !decide (g.getPixel x y = 0)) sx sy ux uy maxDist fuel
              startx starty lenx0 leny0 (some 0) (startx, starty)).cx
            (ddaLoop g.w g.h (fun x y => !decide (g.getPixel x y = 0)) sx sy ux uy maxDist fuel
              startx starty lenx0 leny0 (some 0) (startx, starty)).cy ≠ 0 := by
          rw [h255]
          norm_num
        refine ⟨getPixel_ne_zero_inb g _ _ hne0, ?_⟩
        simp only [hne0, decide_eq_false_iff_not, Bool.not_eq_true]
        simp [hne0]

set_option maxHeartbeats 1600000 in
/-- Witness for C3 amended: with the fully white cell `(3, 0)`, the hit is
reported at the previously visited cell, which sits immediately before the
stopping cell in the visitation order. -/
theorem C3_witness :
    RaycastPrePixelReported fullCellGrid 0 0 1 1 (some 1) none (some 1) none 6 8 =
      ((RaycastPrePixel fullCellGrid 0 0 1 1 (some 1) none (some 1) none 6 8).px,
        (RaycastPrePixel fullCellGrid 0 0 1 1 (some 1) none (some 1) none 6 8).py) ∧
    ∃ pre, ((0 : ℤ), (0 : ℤ)) ::
        (RaycastPrePixel fullCellGrid 0 0 1 1 (some 1) none (some 1) none 6 8).visited =
      pre ++ [((RaycastPrePixel fullCellGrid 0 0 1 1 (some 1) none (some 1) none 6 8).px,
          (RaycastPrePixel fullCellGrid 0 0 1 1 (some 1) none (some 1) none 6 8).py),
        ((RaycastPrePixel fullCellGrid 0 0 1 1 (some 1) none (some 1) none 6 8).cx,
          (RaycastPrePixel fullCellGrid 0 0 1 1 (some 1) none (some 1) none 6 8).cy)] := by
  have h := C3_pre_report fullCellGrid 0 0 1 1 (some 1) none (some 1) none 6 8
  exact h.1
    (by norm_num [RaycastPrePixel, ddaLoop, oLt, oAdd, inBoundsB, MapLocationIsEmpty,
      Grid.getPixel, Grid.inb, fullCellGrid])
    (by norm_num [RaycastPrePixel, MapLocationIsFull, ddaLoop, oLt, oAdd, inBoundsB,
      MapLocationIsEmpty, Grid.getPixel, Grid.inb, fullCellGrid])

lemma naive_positions (g : Grid) (b r tx ty : ℤ) (a c : ℤ) :
    ((a, c) ∈ ((prodList (iccList (-b) b) (iccList (-b) b)).map
        (fun q => ((q.1 + tx, q.2 + ty), naiveBufVal g b r tx ty q.1 q.2))).map Prod.fst) ↔
      (-b ≤ a - tx ∧ a - tx ≤ b ∧ -b ≤ c - ty ∧ c - ty ≤ b) := by
  rw [List.map_map]
  constructor
  · intro hm
    simp only [List.mem_map, Function.comp_apply] at hm
    obtain ⟨q, hq, hqe⟩ := hm
    obtain ⟨h1, h2⟩ := prodList_mem.mp hq
    rw [iccList_mem] at h1 h2
    have hqa : q.1 + tx = a ∧ q.2 + ty = c := by
      constructor <;> [exact congrArg Prod.fst hqe; exact congrArg Prod.snd hqe]
    omega
  · intro hr
    simp only [List.mem_map, Function.comp_apply]
    refine ⟨(a - tx, c - ty), prodList_mem.mpr ⟨iccList_mem.mpr ⟨hr.1, hr.2.1⟩,
      iccList_mem.mpr ⟨hr.2.2.1, hr.2.2.2⟩⟩, ?_⟩
    simp only []
    congr 1 <;> omega

lemma naive_cell_in (g : Grid) (b r tx ty a c : ℤ)
    (hin : -b ≤ a - tx ∧ a - tx ≤ b ∧ -b ≤ c - ty ∧ c - ty ≤ b)
    (hb : g.inb a c = true) :
    (AdjustTerrain_BlendBallFractional g b r tx ty).cell a c =
      projByte (clampQ (naiveBufVal g b r tx ty (a - tx) (c - ty)) 0 1) := by
  unfold AdjustTerrain_BlendBallFractional
  rw [commitList_cell_mem g _ (fun p => naiveBufVal g b r tx ty (p.1 - tx) (p.2 - ty)) ?hf a c
    ((naive_positions g b r tx ty a c).mpr hin) hb]
  case hf =>
    intro pv hpv
    simp only [List.mem_map] at hpv
    obtain ⟨q, _, hqe⟩ := hpv
    rw [← hqe]
    simp only []
    congr 1 <;> omega

lemma naive_cell_out (g : Grid) (b r tx ty a c : ℤ)
    (hout : ¬(-b ≤ a - tx ∧ a - tx ≤ b ∧ -b ≤ c - ty ∧ c - ty ≤ b)) :
    (AdjustTerrain_BlendBallFractional g b r tx ty).cell a c = g.cell a c := by
  unfold AdjustTerrain_BlendBallFractional
  exact commitList_cell_notMem g _ a c (fun hm => hout ((naive_positions g b r tx ty a c).mp hm))

lemma satPairs_mem {n : ℕ} (hn : 0 < n) {yx : ℕ × ℕ} :
    yx ∈ satPairs n ↔ yx.1 < n ∧ yx.2 < n := by
  constructor
  · intro hm
    simp only [satPairs, List.mem_map, List.mem_range] at hm
    obtain ⟨i, hi, rfl⟩ := hm
    exact ⟨(Nat.div_lt_iff_lt_mul hn).mpr hi, Nat.mod_lt _ hn⟩
  · intro ⟨h1, h2⟩
    simp only [satPairs, List.mem_map, List.mem_range]
    refine ⟨yx.2 + yx.1 * n, ?_, ?_⟩
    · calc yx.2 + yx.1 * n < n + yx.1 * n := by omega
        _ = (yx.1 + 1) * n := by ring
        _ ≤ n * n := Nat.mul_le_mul_right n h1
    · have hdiv : (yx.2 + yx.1 * n) / n = yx.1 := by
        rw [Nat.add_mul_div_right _ _ hn, Nat.div_eq_of_lt h2, Nat.zero_add]
      have hmod : (yx.2 + yx.1 * n) % n = yx.2 := by
        rw [Nat.add_mul_mod_self_right, Nat.mod_eq_of_lt h2]
      rw [hdiv, hmod]

lemma satSize_pos (b : ℤ) (hb : 1 ≤ b) : 0 < satSize b := by
  unfold satSize
  omega

lemma fast_positions (g : Grid) (b tx ty : ℤ) (hb : 1 ≤ b) (a c : ℤ) :
    ((a, c) ∈ ((satPairs (satSize b)).map
        (fun yx => ((tx + (yx.2 : ℤ) - (b + 5), ty + (yx.1 : ℤ) - (b + 5)),
          fastCommitVal g b tx ty (satTable g b tx ty) yx.2 yx.1))).map Prod.fst) ↔
      (-(b + 5) ≤ a - tx ∧ a - tx ≤ b + 5 ∧ -(b + 5) ≤ c - ty ∧ c - ty ≤ b + 5) := by
  have hn := satSize_pos b hb
  rw [List.map_map]
  constructor
  · intro hm
    simp only [List.mem_map, Function.comp_apply] at hm
    obtain ⟨yx, hyx, hqe⟩ := hm
    obtain ⟨h1, h2⟩ := (satPairs_mem hn).mp hyx
    have hqa : tx + (yx.2 : ℤ) - (b + 5) = a ∧ ty + (yx.1 : ℤ) - (b + 5) = c := by
      constructor <;> [exact congrArg Prod.fst hqe; exact congrArg Prod.snd hqe]
    unfold satSize at h1 h2
    omega
  · intro hr
    simp only [List.mem_map, Function.comp_apply]
    refine ⟨((c - ty + (b + 5)).toNat, (a - tx + (b + 5)).toNat),
      (satPairs_mem hn).mpr ⟨?_, ?_⟩, ?_⟩
    · unfold satSize
      omega
    · unfold satSize
      omega
    · simp only []
      congr 1 <;> omega

lemma fast_cell_in (g : Grid) (b tx ty a c : ℤ) (hb1 : 1 ≤ b)
    (hin : -(b + 5) ≤ a - tx ∧ a - tx ≤ b + 5 ∧ -(b + 5) ≤ c - ty ∧ c - ty ≤ b + 5)
    (hb : g.inb a c = true) :
    (AdjustTerrain_BlendBallFractionalFast g b tx ty).cell a c =
      projByte (clampQ (fastCommitVal g b tx ty (satTable g b tx ty)
        ((a - tx + (b + 5)).toNat) ((c - ty + (b + 5)).toNat)) 0 1) := by
  unfold AdjustTerrain_BlendBallFractionalFast
  rw [commitList_cell_mem g _ (fun p => fastCommitVal g b tx ty (satTable g b tx ty)
    ((p.1 - tx + (b + 5)).toNat) ((p.2 - ty + (b + 5)).toNat)) ?hf a c
    ((fast_positions g b tx ty hb1 a c).mpr hin) hb]
  case hf =>
    intro pv hpv
    simp only [List.mem_map] at hpv
    obtain ⟨yx, _, hqe⟩ := hpv
    rw [← hqe]
    simp only []
    congr 1 <;> omega

lemma fast_cell_out (g : Grid) (b tx ty a c : ℤ) (hb1 : 1 ≤ b)
    (hout : ¬(-(b + 5) ≤ a - tx ∧ a - tx ≤ b + 5 ∧ -(b + 5) ≤ c - ty ∧ c - ty ≤ b + 5)) :
    (AdjustTerrain_BlendBallFractionalFast g b tx ty).cell a c = g.cell a c := by
  unfold AdjustTerrain_BlendBallFractionalFast
  exact commitList_cell_notMem g _ a c
    (fun hm => hout ((fast_positions g b tx ty hb1 a c).mp hm))

lemma fast2_positions (g : Grid) (b r tx ty : ℤ) (a c : ℤ) :
    ((a, c) ∈ (((prodList (iccList (-b) b) (iccList (-b) b)).filter
        (fun q => decide (q.1 * q.1 + q.2 * q.2 < b * b))).map
        (fun q => ((q.1 + tx, q.2 + ty),
          fast2CommitVal g b (fast2Buffer g b r tx ty) tx ty q.1 q.2))).map Prod.fst) ↔
      (-b ≤ a - tx ∧ a - tx ≤ b ∧ -b ≤ c - ty ∧ c - ty ≤ b ∧
        (a - tx) * (a - tx) + (c - ty) * (c - ty) < b * b) := by
  rw [List.map_map]
  constructor
  · intro hm
    simp only [List.mem_map, Function.comp_apply, List.mem_filter] at hm
    obtain ⟨q, ⟨hq, hd⟩, hqe⟩ := hm
    obtain ⟨h1, h2⟩ := prodList_mem.mp hq
    rw [iccList_mem] at h1 h2
    have hqa : q.1 + tx = a ∧ q.2 + ty = c := by
      constructor <;> [exact congrArg Prod.fst hqe; exact congrArg Prod.snd hqe]
    have hd2 := of_decide_eq_true hd
    have hq1 : q.1 = a - tx := by omega
    have hq2 : q.2 = c - ty := by omega
    rw [hq1, hq2] at hd2
    rw [hq1] at h1
    rw [hq2] at h2
    exact ⟨h1.1, h1.2, h2.1, h2.2, hd2⟩
  · intro hr
    simp only [List.mem_map, Function.comp_apply, List.mem_filter]
    refine ⟨(a - tx, c - ty), ⟨prodList_mem.mpr ⟨iccList_mem.mpr ⟨hr.1, hr.2.1⟩,
      iccList_mem.mpr ⟨hr.2.2.1, hr.2.2.2.1⟩⟩, decide_eq_true hr.2.2.2.2⟩, ?_⟩
    simp only []
    congr 1 <;> omega

lemma fast2_cell_in (g : Grid) (b r tx ty a c : ℤ)
    (hin : -b ≤ a - tx ∧ a - tx ≤ b ∧ -b ≤ c - ty ∧ c - ty ≤ b ∧
      (a - tx) * (a - tx) + (c - ty) * (c - ty) < b * b)
    (hb : g.inb a c = true) :
    (AdjustTerrain_BlendBallFractionalFast2 g b r tx ty).cell a c =
      projByte (clampQ (fast2CommitVal g b (fast2Buffer g b r tx ty) tx ty
        (a - tx) (c - ty)) 0 1) := by
  unfold AdjustTerrain_BlendBallFractionalFast2
  rw [commitList_cell_mem g _ (fun p => fast2CommitVal g b (fast2Buffer g b r tx ty) tx ty
    (p.1 - tx) (p.2 - ty)) ?hf a c ((fast2_positions g b r tx ty a c).mpr hin) hb]
  case hf =>
    intro pv hpv
    simp only [List.mem_map] at hpv
    obtain ⟨q, _, hqe⟩ := hpv
    rw [← hqe]
    simp only []
    congr 1 <;> omega

lemma fast2_cell_out (g : Grid) (b r tx ty a c : ℤ)
    (hout : ¬(-b ≤ a - tx ∧ a - tx ≤ b ∧ -b ≤ c - ty ∧ c - ty ≤ b ∧
      (a - tx) * (a - tx) + (c - ty) * (c - ty) < b * b)) :
    (AdjustTerrain_BlendBallFractionalFast2 g b r tx ty).cell a c = g.cell a c := by
  unfold AdjustTerrain_BlendBallFractionalFast2
  exact commitList_cell_notMem g _ a c
    (fun hm => hout ((fast2_positions g b r tx ty a c).mp hm))

lemma projByte_readback (g : Grid) (x y : ℤ) (hw : g.Wf) (hb : g.inb x y = true) :
    projByte (clampQ (GetColourValue g x y) 0 1) = g.cell x y := by
  unfold GetColourValue Grid.getPixel
  rw [hb]
  simp only [if_true]
  exact projByte_byte _ (hw x y)

lemma naive_cell_oob (g : Grid) (b r tx ty a c : ℤ) (hb : g.inb a c = false) :
    (AdjustTerrain_BlendBallFractional g b r tx ty).cell a c = g.cell a c := by
  unfold AdjustTerrain_BlendBallFractional
  exact commitList_cell_oob _ _ _ _ hb

lemma fast_cell_oob (g : Grid) (b tx ty a c : ℤ) (hb : g.inb a c = false) :
    (AdjustTerrain_BlendBallFractionalFast g b tx ty).cell a c = g.cell a c := by
  unfold AdjustTerrain_BlendBallFractionalFast
  exact commitList_cell_oob _ _ _ _ hb

lemma fast2_cell_oob (g : Grid) (b r tx ty a c : ℤ) (hb : g.inb a c = false) :
    (AdjustTerrain_BlendBallFractionalFast2 g b r tx ty).cell a c = g.cell a c := by
  unfold AdjustTerrain_BlendBallFractionalFast2
  exact commitList_cell_oob _ _ _ _ hb

lemma fastCommitVal_outside (g : Grid) (b tx ty : ℤ) (sums : List ℚ) (x y : ℕ)
    (hb1 : 1 ≤ b)
    (hd : b * b ≤ ((x : ℤ) - (b + 5)) * ((x : ℤ) - (b + 5)) +
      ((y : ℤ) - (b + 5)) * ((y : ℤ) - (b + 5))) :
    fastCommitVal g b tx ty sums x y =
      GetColourValue g (tx + ((x : ℤ) - (b + 5))) (ty + ((y : ℤ) - (b + 5))) := by
  unfold fastCommitVal
  have hbb : (0 : ℚ) < ((b * b : ℤ) : ℚ) := by
    have h0 : (0 : ℤ) < b * b := by nlinarith
    exact_mod_cast h0
  have hdist : ((b * b : ℤ) : ℚ) ≤
      ((((x : ℤ) - (b + 5)) * ((x : ℤ) - (b + 5)) +
        ((y : ℤ) - (b + 5)) * ((y : ℤ) - (b + 5)) : ℤ) : ℚ) := by
    exact_mod_cast hd
  have h1 : (1 : ℚ) ≤ ((((x : ℤ) - (b + 5)) * ((x : ℤ) - (b + 5)) +
      ((y : ℤ) - (b + 5)) * ((y : ℤ) - (b + 5)) : ℤ) : ℚ) / ((b * b : ℤ) : ℚ) :=
    (one_le_div hbb).mpr hdist
  have hdn : max ((1 - ((((x : ℤ) - (b + 5)) * ((x : ℤ) - (b + 5)) +
      ((y : ℤ) - (b + 5)) * ((y : ℤ) - (b + 5)) : ℤ) : ℚ) / ((b * b : ℤ) : ℚ)) * 2 - 1) 0
      = 0 := by
    apply max_eq_right
    linarith
  dsimp only
  rw [hdn]
  simp [Lerp]

/-- C7: for every BlendBall variant and every cell whose squared distance from
the brush centre is at least `brushRadius^2`, the stored byte after the
operation equals the stored byte before it — including the cells the naive
commit pass rewrites with their own read-back value and the cells the SAT
variant rewrites with `Lerp(current, average, 0)`. -/
theorem C7_outside_disc_untouched (g : Grid) (b r tx ty px py : ℤ)
    (hw : g.Wf) (hb1 : 1 ≤ b)
    (hd : b * b ≤ (px - tx) * (px - tx) + (py - ty) * (py - ty)) :
    (AdjustTerrain_BlendBallFractional g b r tx ty).cell px py = g.cell px py ∧
    (AdjustTerrain_BlendBallFractionalFast g b tx ty).cell px py = g.cell px py ∧
    (AdjustTerrain_BlendBallFractionalFast2 g b r tx ty).cell px py = g.cell px py := by
  refine ⟨?_, ?_, ?_⟩
  · by_cases hin : -b ≤ px - tx ∧ px - tx ≤ b ∧ -b ≤ py - ty ∧ py - ty ≤ b
    · by_cases hb : g.inb px py
      · rw [naive_cell_in g b r tx ty px py hin hb]
        have hif : naiveBufVal g b r tx ty (px - tx) (py - ty) =
            GetColourValue g ((px - tx) + tx) ((py - ty) + ty) := by
          unfold naiveBufVal
          rw [if_pos hd]
        rw [hif, show (px - tx) + tx = px by ring, show (py - ty) + ty = py by ring]
        exact projByte_readback g px py hw hb
      · exact naive_cell_oob g b r tx ty px py (by revert hb; cases g.inb px py <;> simp)
    · exact naive_cell_out g b r tx ty px py hin
  · by_cases hin : -(b + 5) ≤ px - tx ∧ px - tx ≤ b + 5 ∧ -(b + 5) ≤ py - ty ∧ py - ty ≤ b + 5
    · by_cases hb : g.inb px py
      · rw [fast_cell_in g b tx ty px py hb1 hin hb]
        have hx : (((px - tx + (b + 5)).toNat : ℤ)) - (b + 5) = px - tx := by omega
        have hy : (((py - ty + (b + 5)).toNat : ℤ)) - (b + 5) = py - ty := by omega
        have hval := fastCommitVal_outside g b tx ty (satTable g b tx ty)
          ((px - tx + (b + 5)).toNat) ((py - ty + (b + 5)).toNat) hb1
          (by rw [hx, hy]; exact hd)
        rw [hval, hx, hy, show tx + (px - tx) = px by ring, show ty + (py - ty) = py by ring]
        exact projByte_readback g px py hw hb
      · exact fast_cell_oob g b tx ty px py (by revert hb; cases g.inb px py <;> simp)
    · exact fast_cell_out g b tx ty px py hb1 hin
  · refine fast2_cell_out g b r tx ty px py ?_
    intro hcontra
    exact absurd hcontra.2.2.2.2 (not_lt.mpr hd)

/-- Witness for C7 at a concrete grid, brush and out-of-disc cell. -/
theorem C7_witness :
    (AdjustTerrain_BlendBallFractional (uniformGrid 8 8 100) 2 1 4 4).cell 6 4 =
      (uniformGrid 8 8 100).cell 6 4 ∧
    (AdjustTerrain_BlendBallFractionalFast (uniformGrid 8 8 100) 2 4 4).cell 6 4 =
      (uniformGrid 8 8 100).cell 6 4 ∧
    (AdjustTerrain_BlendBallFractionalFast2 (uniformGrid 8 8 100) 2 1 4 4).cell 6 4 =
      (uniformGrid 8 8 100).cell 6 4 := by
  have hw : (uniformGrid 8 8 100).Wf := fun a b => by norm_num [uniformGrid]
  exact C7_outside_disc_untouched (uniformGrid 8 8 100) 2 1 4 4 6 4 hw (by norm_num)
    (by norm_num)

lemma foldl_add_sample {α : Type} (f : α → ℚ) (v : ℚ) :
    ∀ (l : List α), (∀ o ∈ l, f o = v) → ∀ (init : ℚ),
      l.foldl (fun s o => s + f o) init = init + l.length * v := by
  intro l
  induction l with
  | nil => intro _ init; simp
  | cons a t ih =>
    intro hf init
    simp only [List.foldl_cons, List.length_cons]
    rw [ih (fun o ho => hf o (List.mem_cons_of_mem _ ho)) _, hf a (List.mem_cons_self _ _)]
    push_cast
    ring

lemma foldl_add_one {α : Type} :
    ∀ (l : List α) (init : ℚ), l.foldl (fun s _ => s + 1) init = init + l.length := by
  intro l
  induction l with
  | nil => intro init; simp
  | cons a t ih =>
    intro init
    simp only [List.foldl_cons, List.length_cons]
    rw [ih]
    push_cast
    ring

lemma prodList_length (xs ys : List ℤ) :
    (prodList xs ys).length = xs.length * ys.length := by
  induction xs with
  | nil => simp [prodList]
  | cons a t ih =>
    simp only [prodList] at ih ⊢
    rw [List.flatMap_cons, List.length_append, List.length_map, ih, List.length_cons]
    ring

lemma uniform_gcv (w h : ℤ) (cb : ℕ) (x y : ℤ) (hx1 : 0 ≤ x) (hx2 : x < w)
    (hy1 : 0 ≤ y) (hy2 : y < h) :
    GetColourValue (uniformGrid w h cb) x y = (cb : ℚ) / 255 := by
  unfold GetColourValue Grid.getPixel Grid.inb uniformGrid
  simp only []
  rw [if_pos]
  exact decide_eq_true (by exact ⟨hx1, hx2, hy1, hy2⟩)

lemma uniform_inb_cases (w h : ℤ) (cb : ℕ) (a c : ℤ) :
    (uniformGrid w h cb).cell a c = cb := rfl

lemma windowSum_uniform (w h : ℤ) (cb : ℕ) (x0 y0 r : ℤ) (hr : 0 ≤ r)
    (hb1 : 0 ≤ x0 - r) (hb2 : x0 + r < w) (hb3 : 0 ≤ y0 - r) (hb4 : y0 + r < h) :
    windowSum (uniformGrid w h cb) x0 y0 r =
      (((2 * r + 1).toNat * (2 * r + 1).toNat : ℕ) : ℚ) * ((cb : ℚ) / 255) := by
  unfold windowSum
  have hs : ∀ o ∈ prodList (iccList (-r) r) (iccList (-r) r),
      GetColourValue (uniformGrid w h cb) (x0 + o.1) (y0 + o.2) = (cb : ℚ) / 255 := by
    intro o ho
    obtain ⟨h1, h2⟩ := prodList_mem.mp ho
    rw [iccList_mem] at h1 h2
    exact uniform_gcv w h cb _ _ (by omega) (by omega) (by omega) (by omega)
  have hlen : (prodList (iccList (-r) r) (iccList (-r) r)).length =
      (2 * r + 1).toNat * (2 * r + 1).toNat := by
    rw [prodList_length, iccList_length]
    have he : (r + 1 - -r).toNat = (2 * r + 1).toNat := by omega
    rw [he]
  exact (foldl_add_sample _ _ _ hs 0).trans (by rw [hlen]; push_cast; ring)

lemma windowCount_eq (r : ℤ) :
    windowCount r = (((2 * r + 1).toNat * (2 * r + 1).toNat : ℕ) : ℚ) := by
  unfold windowCount
  rw [foldl_add_one, prodList_length, iccList_length]
  push_cast
  have : (r + 1 - -r).toNat = (2 * r + 1).toNat := by omega
  rw [this]
  ring

lemma ease_fixed_zero : EaseInOutCubic 0 = 0 := by norm_num [EaseInOutCubic]

lemma ease_fixed_one : EaseInOutCubic 1 = 1 := by norm_num [EaseInOutCubic]

lemma naive_uniform_cell (w h : ℤ) (cb : ℕ) (b r tx ty : ℤ) (hb : 1 ≤ b) (hr : 0 ≤ r)
    (hcb : cb ≤ 255) (hease : EaseInOutCubic ((cb : ℚ) / 255) = (cb : ℚ) / 255)
    (hx1 : 0 ≤ tx - (b + r)) (hx2 : tx + (b + r) < w)
    (hy1 : 0 ≤ ty - (b + r)) (hy2 : ty + (b + r) < h) (a c : ℤ) :
    (AdjustTerrain_BlendBallFractional (uniformGrid w h cb) b r tx ty).cell a c = cb := by
  set g := uniformGrid w h cb with hg
  have hw : g.Wf := fun _ _ => hcb
  by_cases hin : -b ≤ a - tx ∧ a - tx ≤ b ∧ -b ≤ c - ty ∧ c - ty ≤ b
  · by_cases hbnd : g.inb a c
    · rw [naive_cell_in g b r tx ty a c hin hbnd]
      by_cases hdisc : b * b ≤ (a - tx) * (a - tx) + (c - ty) * (c - ty)
      · have hif : naiveBufVal g b r tx ty (a - tx) (c - ty) =
            GetColourValue g ((a - tx) + tx) ((c - ty) + ty) := by
          unfold naiveBufVal
          rw [if_pos hdisc]
        rw [hif, show (a - tx) + tx = a by ring, show (c - ty) + ty = c by ring,
          projByte_readback g a c hw hbnd]
        rfl
      · have hcnt : (0 : ℚ) < (((2 * r + 1).toNat * (2 * r + 1).toNat : ℕ) : ℚ) := by
          have hpos : 0 < (2 * r + 1).toNat * (2 * r + 1).toNat := by
            have : 0 < (2 * r + 1).toNat := by omega
            positivity
          exact_mod_cast hpos
        have havg : windowSum g ((a - tx) + tx) ((c - ty) + ty) r / windowCount r =
            (cb : ℚ) / 255 := by
          rw [hg, windowSum_uniform w h cb _ _ r hr (by omega) (by omega) (by omega) (by omega),
            windowCount_eq]
          exact mul_div_cancel_left₀ _ (ne_of_gt hcnt)
        have hval : naiveBufVal g b r tx ty (a - tx) (c - ty) = (cb : ℚ) / 255 := by
          unfold naiveBufVal
          rw [if_neg hdisc]
          simp only []
          rw [havg, hease, show (a - tx) + tx = a by ring, show (c - ty) + ty = c by ring,
            hg, uniform_gcv w h cb a c (by omega) (by omega) (by omega) (by omega)]
          ring
        rw [hval]
        exact projByte_byte cb hcb
    · rw [naive_cell_oob g b r tx ty a c (by revert hbnd; cases g.inb a c <;> simp)]
      rfl
  · rw [naive_cell_out g b r tx ty a c hin]
    rfl

lemma getD_append_left {l l2 : List ℚ} {j : ℕ} (h : j < l.length) :
    (l ++ l2).getD j 0 = l.getD j 0 := by
  induction l generalizing j with
  | nil => simp at h
  | cons a t ih =>
    cases j with
    | zero => rfl
    | succ m =>
      simp only [List.cons_append, List.getD_cons_succ]
      exact ih (by simpa using h)

lemma getD_append_self {l : List ℚ} {s : ℚ} :
    (l ++ [s]).getD l.length 0 = s := by
  induction l with
  | nil => rfl
  | cons a t ih =>
    simp only [List.cons_append, List.length_cons, List.getD_cons_succ]
    exact ih

lemma satStep_closed (g : Grid) (tx ty rh : ℤ) (n : ℕ) (v : ℚ) (hn : 0 < n)
    (hv : ∀ yi xi : ℕ, yi < n → xi < n →
      GetColourValue g (tx + (xi : ℤ) - rh) (ty + (yi : ℤ) - rh) = v)
    (k : ℕ) (hk : k < n * n) (acc : List ℚ) (hlen : acc.length = k)
    (hinv : ∀ j, j < k → acc.getD j 0 = (((j % n + 1) * (j / n + 1) : ℕ) : ℚ) * v) :
    satStep g tx ty rh n acc (k / n, k % n) =
      acc ++ [(((k % n + 1) * (k / n + 1) : ℕ) : ℚ) * v] := by
  have hx : k % n < n := Nat.mod_lt _ hn
  have hy : k / n < n := (Nat.div_lt_iff_lt_mul hn).mpr hk
  have hknx : n * (k / n) + k % n = k := Nat.div_add_mod k n
  have hc : (k / n) * n = n * (k / n) := Nat.mul_comm _ _
  have hsub : (k / n - 1) * n = (k / n) * n - n := by rw [Nat.sub_mul, one_mul]
  unfold satStep
  dsimp only
  rw [hv (k / n) (k % n) hy hx, hlen]
  refine congrArg (fun z : ℚ => acc ++ [z]) ?_
  by_cases hxp : 0 < k % n
  · have e1 : k - 1 = (k % n - 1) + (k / n) * n := by omega
    have m1 : (k - 1) % n = k % n - 1 := by
      rw [e1, Nat.add_mul_mod_self_right, Nat.mod_eq_of_lt (by omega)]
    have d1 : (k - 1) / n = k / n := by
      rw [e1, Nat.add_mul_div_right _ _ hn, Nat.div_eq_of_lt (by omega), Nat.zero_add]
    by_cases hyp : 0 < k / n
    · have h4 : n * 1 ≤ n * (k / n) := Nat.mul_le_mul_left n hyp
      have e2 : k - n = (k % n) + (k / n - 1) * n := by omega
      have m2 : (k - n) % n = k % n := by
        rw [e2, Nat.add_mul_mod_self_right, Nat.mod_eq_of_lt hx]
      have d2 : (k - n) / n = k / n - 1 := by
        rw [e2, Nat.add_mul_div_right _ _ hn, Nat.div_eq_of_lt hx, Nat.zero_add]
      have e3 : k - (n + 1) = (k % n - 1) + (k / n - 1) * n := by omega
      have m3 : (k - (n + 1)) % n = k % n - 1 := by
        rw [e3, Nat.add_mul_mod_self_right, Nat.mod_eq_of_lt (by omega)]
      have d3 : (k - (n + 1)) / n = k / n - 1 := by
        rw [e3, Nat.add_mul_div_right _ _ hn, Nat.div_eq_of_lt (by omega), Nat.zero_add]
      have hlt1 : k - 1 < k := by omega
      have hltn : k - n < k := by omega
      have hltn1 : k - (n + 1) < k := by omega
      rw [if_pos hxp, if_pos hyp, if_pos ⟨hxp, hyp⟩, hinv _ hlt1, hinv _ hltn, hinv _ hltn1,
        m1, d1, m2, d2, m3, d3]
      have hs1 : k % n - 1 + 1 = k % n := by omega
      have hs2 : k / n - 1 + 1 = k / n := by omega
      rw [hs1, hs2]
      push_cast
      ring
    · have hy0 : k / n = 0 := Nat.eq_zero_of_not_pos hyp
      have hlt1 : k - 1 < k := by omega
      rw [if_pos hxp, if_neg hyp, if_neg (fun hcon => hyp hcon.2), hinv _ hlt1, m1, d1]
      have hs1 : k % n - 1 + 1 = k % n := by omega
      rw [hs1, hy0]
      push_cast
      ring
  · have hx0 : k % n = 0 := by omega
    by_cases hyp : 0 < k / n
    · have h4 : n * 1 ≤ n * (k / n) := Nat.mul_le_mul_left n hyp
      have e2 : k - n = (k % n) + (k / n - 1) * n := by omega
      have m2 : (k - n) % n = k % n := by
        rw [e2, Nat.add_mul_mod_self_right, Nat.mod_eq_of_lt hx]
      have d2 : (k - n) / n = k / n - 1 := by
        rw [e2, Nat.add_mul_div_right _ _ hn, Nat.div_eq_of_lt hx, Nat.zero_add]
      have hltn : k - n < k := by omega
      rw [if_neg hxp, if_pos hyp, if_neg (fun hcon => hxp hcon.1), hinv _ hltn, m2, d2]
      have hs2 : k / n - 1 + 1 = k / n := by omega
      rw [hs2, hx0]
      push_cast
      ring
    · have hy0 : k / n = 0 := Nat.eq_zero_of_not_pos hyp
      rw [if_neg hxp, if_neg hyp, if_neg (fun hcon => hxp hcon.1)]
      rw [hx0, hy0]
      push_cast
      ring

lemma satTable_aux (g : Grid) (tx ty rh : ℤ) (n : ℕ) (v : ℚ) (hn : 0 < n)
    (hv : ∀ yi xi : ℕ, yi < n → xi < n →
      GetColourValue g (tx + (xi : ℤ) - rh) (ty + (yi : ℤ) - rh) = v) :
    ∀ m k : ℕ, ∀ acc : List ℚ, k + m ≤ n * n → acc.length = k →
      (∀ j, j < k → acc.getD j 0 = (((j % n + 1) * (j / n + 1) : ℕ) : ℚ) * v) →
      (((List.range' k m).map (fun i => (i / n, i % n))).foldl
          (satStep g tx ty rh n) acc).length = k + m ∧
      ∀ j, j < k + m →
        (((List.range' k m).map (fun i => (i / n, i % n))).foldl
            (satStep g tx ty rh n) acc).getD j 0 =
          (((j % n + 1) * (j / n + 1) : ℕ) : ℚ) * v := by
  intro m
  induction m with
  | zero =>
    intro k acc hle hlen hinv
    simp only [List.range'_zero, List.map_nil, List.foldl_nil, Nat.add_zero]
    exact ⟨hlen, hinv⟩
  | succ m ih =>
    intro k acc hle hlen hinv
    have hk : k < n * n := by omega
    rw [List.range'_succ, List.map_cons, List.foldl_cons,
      satStep_closed g tx ty rh n v hn hv k hk acc hlen hinv]
    have hlen2 : (acc ++ [(((k % n + 1) * (k / n + 1) : ℕ) : ℚ) * v]).length = k + 1 := by
      simp [hlen]
    have hinv2 : ∀ j, j < k + 1 →
        (acc ++ [(((k % n + 1) * (k / n + 1) : ℕ) : ℚ) * v]).getD j 0 =
          (((j % n + 1) * (j / n + 1) : ℕ) : ℚ) * v := by
      intro j hj
      rcases Nat.lt_or_ge j k with hlt | hge
      · rw [getD_append_left (by rw [hlen]; exact hlt)]
        exact hinv j hlt
      · have hjk : j = k := by omega
        subst hjk
        have h5 := @getD_append_self acc ((((j % n + 1) * (j / n + 1) : ℕ) : ℚ) * v)
        rw [hlen] at h5
        exact h5
    obtain ⟨hL, hI⟩ := ih (k + 1) _ (by omega) hlen2 hinv2
    exact ⟨by rw [hL]; omega, fun j hj => hI j (by omega)⟩

lemma satTable_closed (g : Grid) (b tx ty : ℤ) (v : ℚ) (hn : 0 < satSize b)
    (hv : ∀ yi xi : ℕ, yi < satSize b → xi < satSize b →
      GetColourValue g (tx + (xi : ℤ) - (b + 5)) (ty + (yi : ℤ) - (b + 5)) = v)
    (j : ℕ) (hj : j < satSize b * satSize b) :
    (satTable g b tx ty).getD j 0 =
      (((j % satSize b + 1) * (j / satSize b + 1) : ℕ) : ℚ) * v := by
  have h := satTable_aux g tx ty (b + 5) (satSize b) v hn hv (satSize b * satSize b) 0 []
    (by omega) rfl (fun j hj => absurd hj (Nat.not_lt_zero j))
  unfold satTable satPairs
  rw [List.range_eq_range']
  exact h.2 j (by omega)

lemma satTable_entry (g : Grid) (b tx ty : ℤ) (v : ℚ) (hn : 0 < satSize b)
    (hv : ∀ yi xi : ℕ, yi < satSize b → xi < satSize b →
      GetColourValue g (tx + (xi : ℤ) - (b + 5)) (ty + (yi : ℤ) - (b + 5)) = v)
    (yi xi : ℕ) (hyi : yi < satSize b) (hxi : xi < satSize b) :
    (satTable g b tx ty).getD (yi * satSize b + xi) 0 =
      (((xi + 1) * (yi + 1) : ℕ) : ℚ) * v := by
  have h1 : (yi + 1) * satSize b ≤ satSize b * satSize b :=
    Nat.mul_le_mul_right (satSize b) hyi
  have h2 : yi * satSize b + xi < (yi + 1) * satSize b := by
    rw [Nat.succ_mul]; omega
  have hj : yi * satSize b + xi < satSize b * satSize b := by omega
  have hmod : (yi * satSize b + xi) % satSize b = xi := by
    rw [Nat.mul_comm yi (satSize b), Nat.mul_add_mod, Nat.mod_eq_of_lt hxi]
  have hdiv : (yi * satSize b + xi) / satSize b = yi := by
    rw [Nat.mul_comm yi (satSize b), Nat.mul_add_div hn, Nat.div_eq_of_lt hxi, Nat.add_zero]
  rw [satTable_closed g b tx ty v hn hv _ hj, hmod, hdiv]

lemma toNat_mul_add (yi n xi : ℕ) :
    ((yi : ℤ) * (n : ℤ) + (xi : ℤ)).toNat = yi * n + xi := by
  rw [show (yi : ℤ) * (n : ℤ) + (xi : ℤ) = ((yi * n + xi : ℕ) : ℤ) by push_cast; ring]
  exact Int.toNat_natCast _

lemma fastCommitVal_uniform (w h : ℤ) (cb : ℕ) (b tx ty : ℤ) (hb : 1 ≤ b)
    (hx1 : 0 ≤ tx - (b + 5)) (hx2 : tx + (b + 5) < w)
    (hy1 : 0 ≤ ty - (b + 5)) (hy2 : ty + (b + 5) < h)
    (x y : ℕ) (hx : x < satSize b) (hy : y < satSize b) :
    fastCommitVal (uniformGrid w h cb) b tx ty (satTable (uniformGrid w h cb) b tx ty) x y =
      Lerp ((cb : ℚ) / 255) (EaseInOutCubic ((cb : ℚ) / 255))
        (max ((1 - ((((x : ℤ) - (b + 5)) * ((x : ℤ) - (b + 5)) +
            ((y : ℤ) - (b + 5)) * ((y : ℤ) - (b + 5)) : ℤ) : ℚ) / ((b * b : ℤ) : ℚ)) * 2 - 1)
          0) := by
  have hsz : (satSize b : ℤ) = 2 * (b + 5) + 1 := by
    unfold satSize; rw [Int.toNat_of_nonneg (by omega)]
  have hn : 0 < satSize b := satSize_pos b hb
  have hx' : (x : ℤ) < (satSize b : ℤ) := by exact_mod_cast hx
  have hy' : (y : ℤ) < (satSize b : ℤ) := by exact_mod_cast hy
  have hv : ∀ yi xi : ℕ, yi < satSize b → xi < satSize b →
      GetColourValue (uniformGrid w h cb) (tx + (xi : ℤ) - (b + 5)) (ty + (yi : ℤ) - (b + 5)) =
        (cb : ℚ) / 255 := by
    intro yi xi hyi hxi
    have hxi' : (xi : ℤ) < (satSize b : ℤ) := by exact_mod_cast hxi
    have hyi' : (yi : ℤ) < (satSize b : ℤ) := by exact_mod_cast hyi
    exact uniform_gcv w h cb _ _ (by omega) (by omega) (by omega) (by omega)
  obtain ⟨xj, hxj⟩ : ∃ xj : ℕ, min ((x : ℤ) + 5) ((satSize b : ℤ) - 1) = (xj : ℤ) :=
    ⟨_, (Int.toNat_of_nonneg (by omega)).symm⟩
  obtain ⟨yj, hyj⟩ : ∃ yj : ℕ, min ((y : ℤ) + 5) ((satSize b : ℤ) - 1) = (yj : ℤ) :=
    ⟨_, (Int.toNat_of_nonneg (by omega)).symm⟩
  have hxj' : xj < satSize b := by
    have hxjz : (xj : ℤ) < (satSize b : ℤ) := by omega
    exact_mod_cast hxjz
  have hyj' : yj < satSize b := by
    have hyjz : (yj : ℤ) < (satSize b : ℤ) := by omega
    exact_mod_cast hyjz
  have hcurr : GetColourValue (uniformGrid w h cb) (tx + ((x : ℤ) - (b + 5)))
      (ty + ((y : ℤ) - (b + 5))) = (cb : ℚ) / 255 :=
    uniform_gcv w h cb _ _ (by omega) (by omega) (by omega) (by omega)
  unfold fastCommitVal
  dsimp only
  rw [hcurr, hxj, hyj]
  by_cases hxm : max ((x : ℤ) - 5) 0 - 1 < 0
  · have hxeq : max ((x : ℤ) - 5) 0 - 1 = -1 := by omega
    by_cases hym : max ((y : ℤ) - 5) 0 - 1 < 0
    · have hyeq : max ((y : ℤ) - 5) 0 - 1 = -1 := by omega
      rw [if_pos (Or.inl hxm), if_pos hym, if_pos hxm, hxeq, hyeq,
        toNat_mul_add yj (satSize b) xj,
        satTable_entry (uniformGrid w h cb) b tx ty ((cb : ℚ) / 255) hn hv yj xj hyj' hxj']
      congr 2
      have hp1 : (0 : ℤ) < ((xj : ℤ) - -1) * ((yj : ℤ) - -1) := by
        have h1 : (0 : ℤ) < (xj : ℤ) - -1 := by omega
        have h2 : (0 : ℤ) < (yj : ℤ) - -1 := by omega
        exact mul_pos h1 h2
      have hne : (((((xj : ℤ) - -1) * ((yj : ℤ) - -1)) : ℤ) : ℚ) ≠ 0 := by
        exact_mod_cast ne_of_gt hp1
      rw [div_eq_iff hne]
      push_cast
      ring
    · obtain ⟨yi, hyi⟩ : ∃ yi : ℕ, max ((y : ℤ) - 5) 0 - 1 = (yi : ℤ) :=
        ⟨_, (Int.toNat_of_nonneg (by omega)).symm⟩
      have hyi' : yi < satSize b := by
        have hyiz : (yi : ℤ) < (satSize b : ℤ) := by omega
        exact_mod_cast hyiz
      have hyij : (yi : ℤ) < (yj : ℤ) := by omega
      rw [if_pos (Or.inl hxm), if_neg hym, if_pos hxm, hxeq, hyi,
        toNat_mul_add yi (satSize b) xj, toNat_mul_add yj (satSize b) xj,
        satTable_entry (uniformGrid w h cb) b tx ty ((cb : ℚ) / 255) hn hv yi xj hyi' hxj',
        satTable_entry (uniformGrid w h cb) b tx ty ((cb : ℚ) / 255) hn hv yj xj hyj' hxj']
      congr 2
      have hp1 : (0 : ℤ) < ((xj : ℤ) - -1) * ((yj : ℤ) - (yi : ℤ)) := by
        have h1 : (0 : ℤ) < (xj : ℤ) - -1 := by omega
        have h2 : (0 : ℤ) < (yj : ℤ) - (yi : ℤ) := by omega
        exact mul_pos h1 h2
      have hne : (((((xj : ℤ) - -1) * ((yj : ℤ) - (yi : ℤ))) : ℤ) : ℚ) ≠ 0 := by
        exact_mod_cast ne_of_gt hp1
      rw [div_eq_iff hne]
      push_cast
      ring
  · obtain ⟨xi, hxi⟩ : ∃ xi : ℕ, max ((x : ℤ) - 5) 0 - 1 = (xi : ℤ) :=
      ⟨_, (Int.toNat_of_nonneg (by omega)).symm⟩
    have hxi' : xi < satSize b := by
      have hxiz : (xi : ℤ) < (satSize b : ℤ) := by omega
      exact_mod_cast hxiz
    have hxij : (xi : ℤ) < (xj : ℤ) := by omega
    by_cases hym : max ((y : ℤ) - 5) 0 - 1 < 0
    · have hyeq : max ((y : ℤ) - 5) 0 - 1 = -1 := by omega
      rw [if_pos (Or.inr hym), if_pos hym, if_neg hxm, hyeq, hxi,
        toNat_mul_add yj (satSize b) xi, toNat_mul_add yj (satSize b) xj,
        satTable_entry (uniformGrid w h cb) b tx ty ((cb : ℚ) / 255) hn hv yj xi hyj' hxi',
        satTable_entry (uniformGrid w h cb) b tx ty ((cb : ℚ) / 255) hn hv yj xj hyj' hxj']
      congr 2
      have hp1 : (0 : ℤ) < ((xj : ℤ) - (xi : ℤ)) * ((yj : ℤ) - -1) := by
        have h1 : (0 : ℤ) < (xj : ℤ) - (xi : ℤ) := by omega
        have h2 : (0 : ℤ) < (yj : ℤ) - -1 := by omega
        exact mul_pos h1 h2
      have hne : (((((xj : ℤ) - (xi : ℤ)) * ((yj : ℤ) - -1)) : ℤ) : ℚ) ≠ 0 := by
        exact_mod_cast ne_of_gt hp1
      rw [div_eq_iff hne]
      push_cast
      ring
    · obtain ⟨yi, hyi⟩ : ∃ yi : ℕ, max ((y : ℤ) - 5) 0 - 1 = (yi : ℤ) :=
        ⟨_, (Int.toNat_of_nonneg (by omega)).symm⟩
      have hyi' : yi < satSize b := by
        have hyiz : (yi : ℤ) < (satSize b : ℤ) := by omega
        exact_mod_cast hyiz
      have hyij : (yi : ℤ) < (yj : ℤ) := by omega
      rw [if_neg (fun hc => hc.elim hxm hym), if_neg hym, if_neg hxm, hxi, hyi,
        toNat_mul_add yi (satSize b) xi, toNat_mul_add yi (satSize b) xj,
        toNat_mul_add yj (satSize b) xi, toNat_mul_add yj (satSize b) xj,
        satTable_entry (uniformGrid w h cb) b tx ty ((cb : ℚ) / 255) hn hv yi xi hyi' hxi',
        satTable_entry (uniformGrid w h cb) b tx ty ((cb : ℚ) / 255) hn hv yi xj hyi' hxj',
        satTable_entry (uniformGrid w h cb) b tx ty ((cb : ℚ) / 255) hn hv yj xi hyj' hxi',
        satTable_entry (uniformGrid w h cb) b tx ty ((cb : ℚ) / 255) hn hv yj xj hyj' hxj']
      congr 2
      have hp1 : (0 : ℤ) < ((xj : ℤ) - (xi : ℤ)) * ((yj : ℤ) - (yi : ℤ)) := by
        have h1 : (0 : ℤ) < (xj : ℤ) - (xi : ℤ) := by omega
        have h2 : (0 : ℤ) < (yj : ℤ) - (yi : ℤ) := by omega
        exact mul_pos h1 h2
      have hne : (((((xj : ℤ) - (xi : ℤ)) * ((yj : ℤ) - (yi : ℤ))) : ℤ) : ℚ) ≠ 0 := by
        exact_mod_cast ne_of_gt hp1
      rw [div_eq_iff hne]
      push_cast
      ring

lemma lerp_self (a t : ℚ) : Lerp a a t = a := by unfold Lerp; ring

lemma fast_uniform_cell (w h : ℤ) (cb : ℕ) (b tx ty : ℤ) (hb : 1 ≤ b)
    (hcb : cb ≤ 255) (hease : EaseInOutCubic ((cb : ℚ) / 255) = (cb : ℚ) / 255)
    (hx1 : 0 ≤ tx - (b + 5)) (hx2 : tx + (b + 5) < w)
    (hy1 : 0 ≤ ty - (b + 5)) (hy2 : ty + (b + 5) < h) (a c : ℤ) :
    (AdjustTerrain_BlendBallFractionalFast (uniformGrid w h cb) b tx ty).cell a c = cb := by
  set g := uniformGrid w h cb with hg
  have hw : g.Wf := fun _ _ => hcb
  have hsz : (satSize b : ℤ) = 2 * (b + 5) + 1 := by
    unfold satSize; rw [Int.toNat_of_nonneg (by omega)]
  by_cases hin : -(b + 5) ≤ a - tx ∧ a - tx ≤ b + 5 ∧ -(b + 5) ≤ c - ty ∧ c - ty ≤ b + 5
  · by_cases hbnd : g.inb a c
    · rw [fast_cell_in g b tx ty a c hb hin hbnd]
      have hxlt : (a - tx + (b + 5)).toNat < satSize b := by omega
      have hylt : (c - ty + (b + 5)).toNat < satSize b := by omega
      rw [hg, fastCommitVal_uniform w h cb b tx ty hb hx1 hx2 hy1 hy2 _ _ hxlt hylt, hease,
        lerp_self]
      exact projByte_byte cb hcb
    · rw [fast_cell_oob g b tx ty a c (by revert hbnd; cases g.inb a c <;> simp)]
      rfl
  · rw [fast_cell_out g b tx ty a c hb hin]
    rfl
